import Mathlib

/-!
Verification of the pocketGenius portfolio analytics engine
(backend/services/investment_service.py, backend/models.py) against its
natural-language specification.

Modelling conventions:
* Python floats are modelled as exact rationals; the special float NaN is
  modelled as the value none of an Option type, and infinities are not
  modelled (no property under study exercises them).  The final math.sqrt
  lands in the reals.
* A pandas close-price table is modelled as a list of named columns of
  optional rationals (none = NaN) together with the number of index rows.
* A raised Python exception is modelled with Except String; the string
  carries the exception class and message.
-/

namespace PocketGenius

/-- A portfolio holding (backend/models.py, class PortfolioItem). -/
structure PortfolioItem where
  symbol : String
  quantity : ℚ
  purchase_price : ℚ
  deriving DecidableEq, Repr

/-- The Python str.upper() call, written structurally over the character
list (extensionally the same as the library upper-casing, but transparent
to kernel evaluation). -/
def pyUpper (s : String) : String := String.mk (s.data.map Char.toUpper)

/-- One iteration of the loop of _calculate_values: add the invested
amount and the current value of a single holding. -/
def valuesStep (today_data : List (String × ℚ)) (acc : ℚ × ℚ) (item : PortfolioItem) : ℚ × ℚ :=
  (acc.1 + item.purchase_price * item.quantity,
   acc.2 + ((List.lookup (pyUpper item.symbol) today_data).getD 0) * item.quantity)

/-- InvestmentAnalyzer._calculate_values: folds over the holdings,
accumulating total_investment (purchase_price * quantity) and
current_value (price looked up by upper-cased symbol, default 0.0,
times quantity). -/
def calculate_values (items : List PortfolioItem) (today_data : List (String × ℚ)) : ℚ × ℚ :=
  items.foldl (valuesStep today_data) (0, 0)

/-- InvestmentAnalyzer._calculate_roi: 0.0 when total_investment is not
positive, otherwise the percentage gain. -/
def calculate_roi (total_investment current_value : ℚ) : ℚ :=
  if total_investment ≤ 0 then 0
  else (current_value - total_investment) / total_investment * 100

/-- InvestmentAnalyzer._calculate_sharpe_ratio: 0.0 when volatility == 0,
otherwise excess decimal return over the decimal risk-free rate, divided
by volatility.  self.risk_free_rate is passed explicitly. -/
def calculate_sharpe (risk_free_rate roi_percent volatility : ℚ) : ℚ :=
  if volatility = 0 then 0
  else (roi_percent / 100 - risk_free_rate / 100) / volatility

/-- Tier sentence of _generate_symbol_recommendation for roi < -20. -/
def severe_loss_text (symbol : String) : String :=
  "[" ++ symbol ++ "] Large losses. Evaluate if you should cut or hold for possible rebound."

/-- Tier sentence of _generate_symbol_recommendation for -20 <= roi < 0. -/
def mild_loss_text (symbol : String) : String :=
  "[" ++ symbol ++ "] Mild losses. Possibly hold or rebalance."

/-- Tier sentence of _generate_symbol_recommendation for 0 <= roi < 5. -/
def low_gain_text (symbol : String) : String :=
  "[" ++ symbol ++ "] Low ROI so far. Could hold or look for better returns."

/-- Tier sentence of _generate_symbol_recommendation for 5 <= roi < 20. -/
def moderate_gain_text (symbol : String) : String :=
  "[" ++ symbol ++ "] Decent gains. Consider partial profit or hold if bullish."

/-- Tier sentence of _generate_symbol_recommendation for roi >= 20. -/
def strong_gain_text (symbol : String) : String :=
  "[" ++ symbol ++ "] Strong gains! Monitor valuation and risk."

/-- InvestmentAnalyzer._generate_symbol_recommendation: the if/elif chain
of the source, with the source conditions verbatim. -/
def generate_symbol_recommendation (symbol : String) (roi : ℚ) : String :=
  if roi < -20 then severe_loss_text symbol
  else if roi < 0 then mild_loss_text symbol
  else if 0 ≤ roi ∧ roi < 5 then low_gain_text symbol
  else if 5 ≤ roi ∧ roi < 20 then moderate_gain_text symbol
  else strong_gain_text symbol

/-- Left-pads a digit string with the character 0 up to width k.
Helper for the fixed-point rendering below. -/
def zeroPad (k : ℕ) (s : String) : String :=
  if s.length < k then String.mk (List.replicate (k - s.length) '0') ++ s else s

/-- Abstraction of the Python fixed-point float formatting used inside the
advisory f-strings (.1f and .2f): round the scaled value to the nearest
integer and render sign, integer part and zero-padded fractional part.
No claim inspects the rendered digits, so the exact Python tie-breaking
rule is immaterial; only injectivity of the surrounding sentences into
distinct text matters. -/
def fmtFixed (decimals : ℕ) (x : ℚ) : String :=
  let scale : ℚ := (10 : ℚ) ^ decimals
  let n : Int := ⌊x * scale + 1 / 2⌋
  let sign := if n < 0 then "-" else ""
  let m := n.natAbs
  let d : ℕ := 10 ^ decimals
  sign ++ toString (m / d) ++ "." ++ zeroPad decimals (toString (m % d))

/-- Sector concentration warning sentence of _generate_local_advice. -/
def sector_warning_text (sec : String) (pct : ℚ) : String :=
  "You have a high concentration in " ++ sec ++ " (" ++ fmtFixed 1 pct
    ++ "%). Consider diversifying."

/-- Volatility warning sentence of _generate_local_advice. -/
def volatility_warning_text (v : ℚ) : String :=
  "Portfolio volatility is relatively high (" ++ fmtFixed 2 v
    ++ "), watch out for big swings."

/-- ROI sentence of _generate_local_advice for roi_percent < 0. -/
def negative_roi_text : String :=
  "Overall negative ROI. Consider rebalancing or diversifying."

/-- ROI sentence of _generate_local_advice for 0 <= roi_percent < 5. -/
def modest_roi_text : String :=
  "Modest ROI. You might explore higher-yield opportunities if risk tolerance allows."

/-- ROI sentence of _generate_local_advice for roi_percent >= 5. -/
def solid_roi_text : String :=
  "Solid ROI! Keep monitoring market trends."

/-- Fallback sentence of _generate_local_advice when the join is empty. -/
def no_advice_text : String := "No specific local advice."

/-- The Python expression " ".join(advice). -/
def joinSpace : List String → String
  | [] => ""
  | [s] => s
  | s :: rest => s ++ " " ++ joinSpace rest

/-- The advice list built by _generate_local_advice before joining: one
ROI-tier sentence is always appended (the if/elif/else chain covers all
reals), then one concentration warning for every sector strictly above 50
percent in dict iteration order, then a volatility warning when
volatility > 0.3. -/
def advice_list (roi_percent volatility : ℚ)
    (sector_breakdown : List (String × ℚ)) : List String :=
  [if roi_percent < 0 then negative_roi_text
   else if roi_percent < 5 then modest_roi_text
   else solid_roi_text]
  ++ ((sector_breakdown.filter (fun p => 50 < p.2)).map
        (fun p => sector_warning_text p.1 p.2))
  ++ (if 3 / 10 < volatility then [volatility_warning_text volatility] else [])

/-- InvestmentAnalyzer._generate_local_advice: the advice sentences joined
by single spaces; an empty join falls back to the no-advice sentence (the
Python idiom joined or default). -/
def generate_local_advice (roi_percent volatility : ℚ)
    (sector_breakdown : List (String × ℚ)) : String :=
  if joinSpace (advice_list roi_percent volatility sector_breakdown) = ""
  then no_advice_text
  else joinSpace (advice_list roi_percent volatility sector_breakdown)

/-- The sentence list as the specification words it: one sentence keyed by
the three-tier overall ROI split (negative, zero to five, at least five),
one warning per sector whose share strictly exceeds 50, one volatility
warning exactly when volatility > 0.3. -/
def spec_sentence_list (roi_percent volatility : ℚ)
    (sector_breakdown : List (String × ℚ)) : List String :=
  (if roi_percent < 0 then [negative_roi_text]
   else if 0 ≤ roi_percent ∧ roi_percent < 5 then [modest_roi_text]
   else [solid_roi_text])
  ++ ((sector_breakdown.filter (fun p => 50 < p.2)).map
        (fun p => sector_warning_text p.1 p.2))
  ++ (if 3 / 10 < volatility then [volatility_warning_text volatility] else [])

/-- The portfolio-level advice exactly as the specification words it,
with the single no-specific-advice sentence when no sentence applies. -/
def spec_local_advice (roi_percent volatility : ℚ)
    (sector_breakdown : List (String × ℚ)) : String :=
  if (spec_sentence_list roi_percent volatility sector_breakdown).isEmpty
  then no_advice_text
  else joinSpace (spec_sentence_list roi_percent volatility sector_breakdown)

/-- Python dict insertion with accumulation, as used in
_calculate_sector_breakdown: sector_map.setdefault(sec, 0.0) followed by
sector_map[sec] += val keeps first-insertion order. -/
def assocAdd : List (String × ℚ) → String → ℚ → List (String × ℚ)
  | [], sec, v => [(sec, v)]
  | (k, x) :: rest, sec, v =>
      if k = sec then (k, x + v) :: rest else (k, x) :: assocAdd rest sec v

/-- The two fields of a holding-detail dict that
_calculate_sector_breakdown reads: current_value and sector (the sector
slot may be Python None). -/
structure HoldingDetail where
  current_value : ℚ
  sector : Option String
  deriving Repr

/-- The Python expression detail["sector"] or "Unknown": both None and the
empty string are falsy and become "Unknown". -/
def sectorLabel (s : Option String) : String :=
  match s with
  | none => "Unknown"
  | some str => if str = "" then "Unknown" else str

/-- One iteration of the grouping loop of _calculate_sector_breakdown:
add the current value of one holding detail to its sector bucket and to
the running grand total. -/
def sectorStep (acc : List (String × ℚ) × ℚ) (d : HoldingDetail) : List (String × ℚ) × ℚ :=
  (assocAdd acc.1 (sectorLabel d.sector) d.current_value,
   acc.2 + d.current_value)

/-- InvestmentAnalyzer._calculate_sector_breakdown: group current_value by
sector label, then map each sector total to its percentage of the grand
total, or 0.0 throughout when the grand total is not positive. -/
def calculate_sector_breakdown (item_details : List HoldingDetail) : List (String × ℚ) :=
  let acc := item_details.foldl sectorStep ([], 0)
  acc.1.map (fun p => (p.1, if 0 < acc.2 then p.2 / acc.2 * 100 else 0))

/-- The two-holding scenario of the specification: AAPL quantity 10 at
purchase price 150 and MSFT quantity 5 at purchase price 300. -/
def demoItems : List PortfolioItem :=
  [⟨"AAPL", 10, 150⟩, ⟨"MSFT", 5, 300⟩]

/-- The price snapshot of the specification scenario. -/
def demoSnapshot : List (String × ℚ) := [("AAPL", 165), ("MSFT", 290)]

/-- The Python str.lower() call, written structurally over the character
list. -/
def pyLower (s : String) : String := String.mk (s.data.map Char.toLower)

/-- The attributes that exist on an InvestmentAnalyzer instance: the five
assignments performed by __init__ plus the methods of the class.  The
module-level logging handle named logger is not among them. -/
def analyzerAttrs : List String :=
  ["risk_free_rate", "cache", "cache_ttl_seconds", "risk_tolerance", "openai_client",
   "__init__", "analyze_portfolio", "_fetch_market_data", "_calculate_values",
   "_calculate_roi", "_calculate_portfolio_volatility", "_calculate_sharpe_ratio",
   "_calculate_item_details", "_fetch_fundamentals", "_generate_symbol_recommendation",
   "_generate_symbol_recommendation_gpt", "_fetch_analyst_recommendation",
   "_calculate_sector_breakdown", "_fetch_macro_data", "_generate_local_advice",
   "_generate_gpt_portfolio_advice"]

/-- Python attribute lookup on self: succeeds when the attribute exists
and raises AttributeError otherwise. -/
def selfGetAttr (attr : String) : Except String Unit :=
  if analyzerAttrs.contains attr then Except.ok ()
  else Except.error ("AttributeError: InvestmentAnalyzer object has no attribute " ++ attr)

/-- The last row of the analyst-recommendation DataFrame together with its
column names; integer and string cells are kept in separate maps and read
with the defaults that the source passes to the .get calls. -/
structure RecsDF where
  cols : List String
  rowInt : List (String × Int)
  rowStr : List (String × String)
  indexLabel : String

/-- Outcome of the external call ticker.recommendations: either no usable
table (the source treats None and an empty frame alike) or a table. -/
inductive RecsFetch where
  | noneOrEmpty : RecsFetch
  | table : RecsDF → RecsFetch

/-- The aggregated-ratings sentence built for the new-format analyst
table. -/
def newFormatSummary (df : RecsDF) : String :=
  let period := (List.lookup "period" df.rowStr).getD "?"
  let sb := (List.lookup "strongBuy" df.rowInt).getD 0
  let b := (List.lookup "buy" df.rowInt).getD 0
  let h := (List.lookup "hold" df.rowInt).getD 0
  let s := (List.lookup "sell" df.rowInt).getD 0
  let ss := (List.lookup "strongSell" df.rowInt).getD 0
  "Aggregated ratings over " ++ period ++ ": " ++ toString sb ++ " strong buys, "
    ++ toString b ++ " buys, " ++ toString h ++ " holds, " ++ toString s
    ++ " sells, " ++ toString ss ++ " strong sells."

/-- The last-analyst sentence built for the old-format analyst table. -/
def oldFormatSummary (df : RecsDF) : String :=
  let firm := (List.lookup "Firm" df.rowStr).getD "UnknownFirm"
  let toGrade := (List.lookup "To Grade" df.rowStr).getD "N/A"
  let action := (List.lookup "Action" df.rowStr).getD "N/A"
  "Last analyst: " ++ firm ++ " -> " ++ toGrade ++ " [" ++ action ++ "] on "
    ++ df.indexLabel ++ "."

/-- InvestmentAnalyzer._fetch_analyst_recommendation.  The external fetch
is an oracle; on its failure the except block first evaluates self.logger
(which does not exist on the instance, only a module-level logger exists),
so the attribute lookup itself raises and the fallback return below it is
unreachable. -/
def fetch_analyst_recommendation (fetch : Except String RecsFetch) : Except String String :=
  match fetch with
  | Except.ok RecsFetch.noneOrEmpty => Except.ok "No analyst data found."
  | Except.ok (RecsFetch.table df) =>
      let lower := df.cols.map pyLower
      if lower.contains "strongbuy" && lower.contains "buy" && lower.contains "hold" then
        Except.ok (newFormatSummary df)
      else if lower.contains "firm" && lower.contains "to grade" && lower.contains "action" then
        Except.ok (oldFormatSummary df)
      else
        Except.ok "Analyst data in an unrecognized format."
  | Except.error _ =>
      match selfGetAttr "logger" with
      | Except.ok _ => Except.ok "Error fetching analyst recommendations."
      | Except.error e => Except.error e

/-- The fields of the yfinance ticker.info dict read by
_fetch_fundamentals; none models an absent key. -/
structure TickerInfo where
  sector : Option String
  trailingPE : Option ℚ

/-- InvestmentAnalyzer._fetch_fundamentals: results starts as the empty
dict; on a fetched truthy info dict the sector key (default "Unknown") and
the pe_ratio key (default None) are set; on any exception the still-empty
dict is returned.  The result models dict-entry presence for the two
keys. -/
def fetch_fundamentals (infoFetch : Except String (Option TickerInfo)) :
    Option String × Option (Option ℚ) :=
  match infoFetch with
  | Except.error _ => (none, none)
  | Except.ok none => (none, none)
  | Except.ok (some info) => (some (info.sector.getD "Unknown"), some info.trailingPE)

/-- The read fundamentals.get("sector", "Unknown") performed by
_calculate_item_details on the fundamentals dict. -/
def sector_of_fundamentals (f : Option String × Option (Option ℚ)) : String :=
  f.1.getD "Unknown"

/-- InvestmentAnalyzer._generate_symbol_recommendation_gpt: the OpenAI
chat call is an oracle returning the message content or raising; the
content is stripped on success and any exception yields the fallback
string. -/
def generate_symbol_recommendation_gpt (api : Except String String) : String :=
  match api with
  | Except.ok content => content.trim
  | Except.error _ => "AI recommendation unavailable."

/-- InvestmentAnalyzer._generate_gpt_portfolio_advice: same oracle shape
as the item-level call, with its own fallback string. -/
def generate_gpt_portfolio_advice (api : Except String String) : String :=
  match api with
  | Except.ok content => content.trim
  | Except.error _ => "GPT portfolio advice unavailable."

/-- A Python float: some q is a genuine (rational) float value, none is
the float NaN. -/
abbrev OQ := Option ℚ

/-- The close-price block of the downloaded history: a single-ticker
download yields a plain Series, a multi-ticker download yields a frame of
named columns (the source drops the MultiIndex level naming Close before
use, so frame columns are represented by ticker name directly). -/
inductive CloseCols where
  | series : List OQ → CloseCols
  | frame : List (String × List OQ) → CloseCols

/-- The downloaded yfinance history: number of index rows, the Close block
when present, and the count of non-Close columns (Open, High, Low,
Volume, ...), which matters only for the DataFrame emptiness test. -/
structure HistData where
  numRows : ℕ
  close : Option CloseCols
  otherCols : ℕ

/-- Number of columns contributed by the Close block. -/
def closeColCount (h : HistData) : ℕ :=
  match h.close with
  | none => 0
  | some (CloseCols.series _) => 1
  | some (CloseCols.frame cols) => cols.length

/-- pandas DataFrame.empty: some axis has length 0. -/
def histEmpty (h : HistData) : Bool :=
  h.numRows == 0 || (h.otherCols + closeColCount h) == 0

/-- The empty DataFrame returned on a failed download. -/
def emptyHist : HistData := ⟨0, none, 0⟩

/-- The today_data extraction inside the try block of _fetch_market_data:
the single-symbol path takes the last Close value (0.0 when the history is
empty), the multi-symbol path takes the last non-NaN Close per symbol with
default 0.0; pandas errors raise exactly where the source would raise
inside the try block. -/
def todayFromHist (symbols : List String) (h : HistData) :
    Except String (List (String × OQ)) :=
  if symbols.length == 1 then
    if histEmpty h then Except.ok [(symbols.headD "", some 0)]
    else
      match h.close with
      | none => Except.error "KeyError: Close"
      | some (CloseCols.series vals) =>
          Except.ok [(symbols.headD "", vals.getLast?.getD none)]
      | some (CloseCols.frame cols) =>
          match cols with
          | [c] => Except.ok [(symbols.headD "", c.2.getLast?.getD none)]
          | _ => Except.error "TypeError: float() argument is not a scalar"
  else
    match h.close with
    | some (CloseCols.frame cols) =>
        Except.ok (symbols.map (fun s =>
          match List.lookup s cols with
          | some col =>
              match (col.filterMap id).getLast? with
              | some v => (s, some v)
              | none => (s, some 0)
          | none => (s, some 0)))
    | some (CloseCols.series _) =>
        Except.error "AttributeError: Series has no attribute columns"
    | none => Except.ok (symbols.map (fun s => (s, some 0)))

/-- InvestmentAnalyzer._fetch_market_data in the configuration without a
cache: an empty symbol set short-circuits; otherwise the download oracle
either raises or yields a history from which today_data is extracted, and
any exception in the try block is caught and replaced by the fallback pair
of an empty dict and an empty DataFrame. -/
def fetch_market_data (symbols : List String) (download : Except String HistData) :
    List (String × OQ) × HistData :=
  if symbols.isEmpty then ([], emptyHist)
  else
    match download.bind (fun h => (todayFromHist symbols h).map (fun td => (td, h))) with
    | Except.ok r => r
    | Except.error _ => ([], emptyHist)

/-- NaN-propagating float addition. -/
def oadd (a b : OQ) : OQ :=
  match a, b with
  | some x, some y => some (x + y)
  | _, _ => none

/-- NaN-propagating float multiplication (NaN times 0 is NaN, as for IEEE
floats). -/
def omul (a b : OQ) : OQ :=
  match a, b with
  | some x, some y => some (x * y)
  | _, _ => none

/-- NaN-propagating float division; only reached with a positive divisor
in the pipeline below. -/
def odiv (a b : OQ) : OQ :=
  match a, b with
  | some x, some y => some (x / y)
  | _, _ => none

/-- Float summation (used for the position total and for dot products):
NaN poisons the sum. -/
def osum (l : List OQ) : OQ := l.foldl oadd (some 0)

/-- np.dot on float vectors. -/
def dotOQ (x y : List OQ) : OQ := osum (List.zipWith omul x y)

/-- The column name given to a single-symbol Series: the first holding
symbol upper-cased, or SINGLE without holdings. -/
def singleColName (items : List PortfolioItem) : String :=
  match items with
  | [] => "SINGLE"
  | it :: _ => pyUpper it.symbol

/-- The close_df construction of _calculate_portfolio_volatility: a Series
becomes a one-column frame named after the first holding; a frame keeps
its columns (the MultiIndex level is dropped in the representation). -/
def closeDF (items : List PortfolioItem) : CloseCols → List (String × List OQ)
  | CloseCols.series vals => [(singleColName items, vals)]
  | CloseCols.frame cols => cols

/-- close_df.dropna(axis=1, how="all"): keep the columns having at least
one non-NaN entry. -/
def dropAllNaCols (cols : List (String × List OQ)) : List (String × List OQ) :=
  cols.filter (fun c => c.2.any Option.isSome)

/-- The retained close table. -/
def closeTable (items : List PortfolioItem) (cc : CloseCols) : List (String × List OQ) :=
  dropAllNaCols (closeDF items cc)

/-- Forward fill from an optional previous value (the pad fill that the
default pct_change applies before differencing). -/
def ffillFrom : OQ → List OQ → List OQ
  | _, [] => []
  | prev, x :: xs =>
      match x with
      | some v => some v :: ffillFrom (some v) xs
      | none => prev :: ffillFrom prev xs

/-- One percentage change: NaN when either neighbour is missing; a zero
previous price yields a non-finite float in Python, which no studied input
reaches and which is folded into the undefined value here. -/
def pctOne (a b : OQ) : OQ :=
  match a, b with
  | some x, some y => if x = 0 then none else some ((y - x) / x)
  | _, _ => none

/-- Series.pct_change(): the first row is NaN and row i holds the change
from padded row i-1 to row i. -/
def pctChangeCol (c : List OQ) : List OQ :=
  match c with
  | [] => []
  | _ :: _ =>
      let f := ffillFrom none c
      none :: List.zipWith pctOne f f.tail

/-- The row indices kept by dropna(how="all") on the daily-return table:
a row survives when some column has a value there. -/
def keptIdxs (cols : List (List OQ)) (numRows : ℕ) : List ℕ :=
  (List.range numRows).filter (fun i => cols.any (fun c => (c.getD i none).isSome))

/-- Restriction of one column to the kept rows. -/
def selectRows (c : List OQ) (idxs : List ℕ) : List OQ :=
  idxs.map (fun i => c.getD i none)

/-- Keep only the complete (non-NaN) pairs of two zipped columns. -/
def pairKeep (p : OQ × OQ) : Option (ℚ × ℚ) :=
  match p with
  | (some a, some b) => some (a, b)
  | _ => none

/-- pandas pairwise sample covariance of two float columns (ddof = 1,
pairwise deletion of missing entries, means taken over the complete
pairs); undefined (NaN) with fewer than two complete pairs. -/
def pairCov (x y : List OQ) : OQ :=
  let ps := (x.zip y).filterMap pairKeep
  let n := ps.length
  if n < 2 then none
  else
    let mx := (ps.map Prod.fst).sum / (n : ℚ)
    let my := (ps.map Prod.snd).sum / (n : ℚ)
    some ((ps.map (fun p => (p.1 - mx) * (p.2 - my))).sum / ((n : ℚ) - 1))

/-- daily_ret.cov(): the pairwise covariance matrix in column order. -/
def covMatrix (cols : List (List OQ)) : List (List OQ) :=
  cols.map (fun ci => cols.map (fun cj => pairCov ci cj))

/-- close_df.iloc[-1]: the last value of every column, by column name. -/
def lastRow (cols : List (String × List OQ)) : List (String × OQ) :=
  cols.map (fun c => (c.1, c.2.getLast?.getD none))

/-- Python dict assignment symbol_value_map[up] = pos_val (overwrite,
keep first-insertion order). -/
def assocSet : List (String × OQ) → String → OQ → List (String × OQ)
  | [], k, v => [(k, v)]
  | (k0, v0) :: rest, k, v =>
      if k0 = k then (k0, v) :: rest else (k0, v0) :: assocSet rest k v

/-- One iteration of the position-value loop: look the upper-cased symbol
up among the last prices (0.0 when absent), multiply by the quantity,
store it in the symbol map and add it to the running total. -/
def valueStep (lastP : List (String × OQ)) (acc : List (String × OQ) × OQ)
    (item : PortfolioItem) : List (String × OQ) × OQ :=
  let up := pyUpper item.symbol
  let lp : OQ := (List.lookup up lastP).getD (some 0)
  let pos := omul lp (some item.quantity)
  (assocSet acc.1 up pos, oadd acc.2 pos)

/-- The symbol_value_map and total_val loop of
_calculate_portfolio_volatility. -/
def buildValueMap (items : List PortfolioItem) (lastP : List (String × OQ)) :
    List (String × OQ) × OQ :=
  items.foldl (valueStep lastP) ([], some 0)

/-- The weight loop: for every covariance column, the stored position
value of the upper-cased name (0.0 when absent) divided by the total when
that total is a positive number, else 0.0 (the Python comparison
total_val > 0 is false for NaN). -/
def weightsOf (covNames : List String) (valMap : List (String × OQ)) (total : OQ) :
    List OQ :=
  covNames.map (fun c =>
    let val : OQ := (List.lookup (pyUpper c) valMap).getD (some 0)
    match total with
    | some t => if 0 < t then odiv val (some t) else some 0
    | none => some 0)

/-- math.sqrt: NaN maps to NaN, a negative argument raises ValueError,
otherwise the real square root. -/
noncomputable def mathSqrt (x : OQ) : Except String (Option ℝ) :=
  match x with
  | none => Except.ok none
  | some v =>
      if v < 0 then Except.error "ValueError: math domain error"
      else Except.ok (some (Real.sqrt (v : ℝ)))

/-- The per-column daily-return table close_df.pct_change(). -/
def retColsOf (items : List PortfolioItem) (cc : CloseCols) : List (List OQ) :=
  (closeTable items cc).map (fun p => pctChangeCol p.2)

/-- The row indices surviving dropna(how="all") on the return table. -/
def keptOf (items : List PortfolioItem) (cc : CloseCols) (numRows : ℕ) : List ℕ :=
  keptIdxs (retColsOf items cc) numRows

/-- The daily-return columns restricted to the kept rows. -/
def drColsOf (items : List PortfolioItem) (cc : CloseCols) (numRows : ℕ) : List (List OQ) :=
  (retColsOf items cc).map (fun c => selectRows c (keptOf items cc numRows))

/-- total_val, the sum of the position values. -/
def totalValAt (items : List PortfolioItem) (cc : CloseCols) : OQ :=
  (buildValueMap items (lastRow (closeTable items cc))).2

/-- The weight vector w_array, in covariance column order. -/
def weightsAt (items : List PortfolioItem) (cc : CloseCols) : List OQ :=
  weightsOf ((closeTable items cc).map Prod.fst)
    (buildValueMap items (lastRow (closeTable items cc))).1
    (buildValueMap items (lastRow (closeTable items cc))).2

/-- daily_portfolio_var, the quadratic form np.dot(w, np.dot(cov, w)). -/
def dailyVarAt (items : List PortfolioItem) (cc : CloseCols) (numRows : ℕ) : OQ :=
  dotOQ (weightsAt items cc)
    ((covMatrix (drColsOf items cc numRows)).map
      (fun row => dotOQ row (weightsAt items cc)))

/-- The argument that _calculate_portfolio_volatility hands to math.sqrt
when the computation reaches the quadratic-form step (the daily variance
times 252), or none when one of the early guards (empty history, missing
Close key, no usable close column, empty daily-return table) returns 0.0
first. -/
def annualVarAt (items : List PortfolioItem) (h : HistData) : Option OQ :=
  if histEmpty h then none
  else
    match h.close with
    | none => none
    | some cc =>
        if (closeTable items cc).isEmpty then none
        else if (keptOf items cc h.numRows).isEmpty then none
        else some (omul (dailyVarAt items cc h.numRows) (some 252))

/-- InvestmentAnalyzer._calculate_portfolio_volatility: every early guard
returns 0.0; otherwise the annualized daily variance goes through
math.sqrt and the result is returned as a float. -/
noncomputable def calculate_portfolio_volatility (items : List PortfolioItem) (h : HistData) :
    Except String (Option ℝ) :=
  match annualVarAt items h with
  | none => Except.ok (some 0)
  | some av => mathSqrt av

/-- Day-over-day simple returns of a price series (specification side). -/
def dailyReturnsQ (ps : List ℚ) : List ℚ :=
  List.zipWith (fun a b => (b - a) / a) ps ps.tail

/-- Mean of a rational list. -/
def meanQ (l : List ℚ) : ℚ := l.sum / (l.length : ℚ)

/-- Sample variance with ddof 1, undefined on fewer than two samples
(specification side). -/
def sampleVariance (rs : List ℚ) : Option ℚ :=
  if rs.length < 2 then none
  else some ((rs.map (fun r => (r - meanQ rs) ^ 2)).sum / ((rs.length : ℚ) - 1))

/-- The annualized standard deviation of the daily returns of one price
series: the square root of 252 times the sample variance (specification
side of claim C2). -/
noncomputable def annualizedStdSpec (ps : List ℚ) : Option ℝ :=
  (sampleVariance (dailyReturnsQ ps)).map (fun v => Real.sqrt (((252 : ℚ) * v : ℚ) : ℝ))

/-- Proof-side dot product on complete (NaN-free) vectors. -/
def dotQ (x y : List ℚ) : ℚ := (List.zipWith (· * ·) x y).sum

/-- Proof-side sample covariance on complete equal-length columns. -/
def sCovQ (x y : List ℚ) : ℚ :=
  ((x.zip y).map (fun p => (p.1 - meanQ x) * (p.2 - meanQ y))).sum / ((x.length : ℚ) - 1)

/-- Proof-side covariance matrix on complete columns. -/
def covQ (cols : List (List ℚ)) : List (List ℚ) :=
  cols.map (fun ci => cols.map (fun cj => sCovQ ci cj))


/-- The rational argument handed to math.sqrt at the quadratic step (0 in
the guard and NaN cases, which the theorems below exclude). -/
def sqrtArgOf (items : List PortfolioItem) (h : HistData) : ℚ :=
  ((annualVarAt items h).getD none).getD 0

/-- A close block in which symbol BBB starts trading three rows late:
the pairwise-deleted covariance of such data need not be positive
semidefinite. -/
def ccC10 : CloseCols := CloseCols.frame
  [("AAA", [some 1, some 1, some 1, some 1, some (1/2), some (3/4)]),
   ("BBB", [none, none, none, some 1, some (3/2), some (3/4)])]

/-- A six-row downloaded history holding ccC10 (plus the four non-Close
column groups Open, High, Low, Volume). -/
def histC10 : HistData := ⟨6, some ccC10, 4⟩

/-- Two one-share holdings of the two symbols of ccC10. -/
def itemsC10 : List PortfolioItem := [⟨"AAA", 1, 1⟩, ⟨"BBB", 1, 1⟩]

/-- The same two holdings against a complete three-row close block. -/
def ccC10W : CloseCols := CloseCols.frame
  [("AAA", [some 1, some 2, some 4]), ("BBB", [some 1, some 3, some 9])]

/-- A three-row downloaded history holding ccC10W. -/
def histC10W : HistData := ⟨3, some ccC10W, 4⟩


/-- A two-row constant price history for one symbol: pandas cov with
ddof 1 on the single return row is NaN. -/
def histC3 : HistData := ⟨2, some (CloseCols.series [some 1, some 1]), 4⟩

/-- The single holding of the two-row constant history. -/
def itemsC3 : List PortfolioItem := [⟨"AAPL", 1, 1⟩]


/-- Two one-share lots of the same symbol: the source overwrites
symbol_value_map per symbol while total_val accumulates across lots, so
the single weight becomes last-lot-value over total, here 1/2. -/
def itemsC2 : List PortfolioItem := [⟨"AAPL", 1, 150⟩, ⟨"AAPL", 1, 150⟩]

/-- A three-row single-symbol history with prices 1, 2, 3. -/
def histC2 : HistData := ⟨3, some (CloseCols.series [some 1, some 2, some 3]), 4⟩

/-- Claim C1 (refuting the raised-never part): the fundamentals, GPT and
price-data collaborator failures are caught and replaced by their
documented fallbacks, but the analyst-recommendation error path evaluates
the nonexistent self.logger attribute inside its own except block, so it
raises AttributeError instead of returning the documented fallback string
— the exception then propagates through _calculate_item_details and
analyze_portfolio to the caller. -/
theorem collaborator_failure_paths :
    fetch_fundamentals (Except.error "HTTPError: 503") = (none, none) ∧
    sector_of_fundamentals (fetch_fundamentals (Except.error "HTTPError: 503")) = "Unknown" ∧
    generate_symbol_recommendation_gpt (Except.error "APIConnectionError") =
      "AI recommendation unavailable." ∧
    generate_gpt_portfolio_advice (Except.error "APIConnectionError") =
      "GPT portfolio advice unavailable." ∧
    fetch_market_data ["AAPL"] (Except.error "ConnectionError") = ([], emptyHist) ∧
    fetch_analyst_recommendation (Except.error "HTTPError: 503") =
      Except.error "AttributeError: InvestmentAnalyzer object has no attribute logger" ∧
    fetch_analyst_recommendation (Except.error "HTTPError: 503") ≠
      Except.ok "Error fetching analyst recommendations." := by
  refine ⟨rfl, rfl, rfl, rfl, rfl, ?_, ?_⟩
  · simp [fetch_analyst_recommendation, selfGetAttr, analyzerAttrs]
  · simp [fetch_analyst_recommendation, selfGetAttr, analyzerAttrs]

/-- Claim C4: _calculate_roi is exactly 0 for every non-positive
total_investment regardless of current_value, and equals the percentage
gain formula for every positive total_investment. -/
theorem roi_guard_and_formula (total_investment current_value : ℚ) :
    (total_investment ≤ 0 → calculate_roi total_investment current_value = 0) ∧
    (0 < total_investment →
      calculate_roi total_investment current_value =
        (current_value - total_investment) / total_investment * 100) := by
  constructor
  · intro h; simp [calculate_roi, h]
  · intro h; rw [calculate_roi, if_neg (by linarith)]

/-- Witness for roi_guard_and_formula at total_investment = 0 and at a
positive total_investment. -/
theorem roi_guard_and_formula_witness :
    calculate_roi 0 5 = 0 ∧ calculate_roi 4 6 = (6 - 4) / 4 * 100 :=
  ⟨(roi_guard_and_formula 0 5).1 (by norm_num),
   (roi_guard_and_formula 4 6).2 (by norm_num)⟩

/-- Claim C5: _calculate_sharpe_ratio is exactly 0 when volatility is 0,
for every roi_percent and risk-free rate, and otherwise is the excess
decimal return divided by volatility. -/
theorem sharpe_guard_and_formula (risk_free_rate roi_percent volatility : ℚ) :
    (volatility = 0 → calculate_sharpe risk_free_rate roi_percent volatility = 0) ∧
    (volatility ≠ 0 →
      calculate_sharpe risk_free_rate roi_percent volatility =
        (roi_percent / 100 - risk_free_rate / 100) / volatility) := by
  constructor
  · intro h; simp [calculate_sharpe, h]
  · intro h; rw [calculate_sharpe, if_neg h]

/-- Witness for sharpe_guard_and_formula at volatility 0 and at a nonzero
volatility, with the default risk-free rate 4.54. -/
theorem sharpe_guard_and_formula_witness :
    calculate_sharpe (454 / 100) 7 0 = 0 ∧
    calculate_sharpe (454 / 100) 7 (1 / 2) = (7 / 100 - 454 / 100 / 100) / (1 / 2) :=
  ⟨(sharpe_guard_and_formula (454 / 100) 7 0).1 (by norm_num),
   (sharpe_guard_and_formula (454 / 100) 7 (1 / 2)).2 (by norm_num)⟩

/-- Claim C6: _generate_symbol_recommendation maps ROI to exactly the five
tiers with the stated boundary inclusivity. -/
theorem symbol_recommendation_tiers (symbol : String) (roi : ℚ) :
    (roi < -20 →
      generate_symbol_recommendation symbol roi = severe_loss_text symbol) ∧
    (-20 ≤ roi ∧ roi < 0 →
      generate_symbol_recommendation symbol roi = mild_loss_text symbol) ∧
    (0 ≤ roi ∧ roi < 5 →
      generate_symbol_recommendation symbol roi = low_gain_text symbol) ∧
    (5 ≤ roi ∧ roi < 20 →
      generate_symbol_recommendation symbol roi = moderate_gain_text symbol) ∧
    (20 ≤ roi →
      generate_symbol_recommendation symbol roi = strong_gain_text symbol) := by
  unfold generate_symbol_recommendation
  refine ⟨fun h => ?_, fun h => ?_, fun h => ?_, fun h => ?_, fun h => ?_⟩
  · rw [if_pos h]
  · rw [if_neg (by linarith [h.1]), if_pos h.2]
  · rw [if_neg (by linarith [h.1]), if_neg (by linarith [h.1]), if_pos h]
  · rw [if_neg (by linarith [h.1]), if_neg (by linarith [h.1]),
      if_neg (by rintro ⟨-, h5⟩; linarith [h.1]), if_pos h]
  · rw [if_neg (by linarith), if_neg (by linarith),
      if_neg (by rintro ⟨-, h5⟩; linarith),
      if_neg (by rintro ⟨-, h20⟩; linarith)]

/-- Witness for symbol_recommendation_tiers at the four boundary ROIs and
one interior severe-loss ROI. -/
theorem symbol_recommendation_tiers_witness :
    generate_symbol_recommendation "AAPL" (-21) = severe_loss_text "AAPL" ∧
    generate_symbol_recommendation "AAPL" (-20) = mild_loss_text "AAPL" ∧
    generate_symbol_recommendation "AAPL" 0 = low_gain_text "AAPL" ∧
    generate_symbol_recommendation "AAPL" 5 = moderate_gain_text "AAPL" ∧
    generate_symbol_recommendation "AAPL" 20 = strong_gain_text "AAPL" :=
  ⟨(symbol_recommendation_tiers "AAPL" (-21)).1 (by norm_num),
   (symbol_recommendation_tiers "AAPL" (-20)).2.1 (by norm_num),
   (symbol_recommendation_tiers "AAPL" 0).2.2.1 (by norm_num),
   (symbol_recommendation_tiers "AAPL" 5).2.2.2.1 (by norm_num),
   (symbol_recommendation_tiers "AAPL" 20).2.2.2.2 (by norm_num)⟩

/-- Joining a list whose head is a nonempty sentence never yields the
empty string. -/
theorem joinSpace_cons_ne_empty (s : String) (l : List String) (hs : s ≠ "") :
    joinSpace (s :: l) ≠ "" := by
  cases l with
  | nil => simpa [joinSpace] using hs
  | cons a t =>
      intro h
      have hlen := congrArg String.length h
      simp only [joinSpace, String.length_append] at hlen
      have hone : (" " : String).length = 1 := rfl
      have hnil : ("" : String).length = 0 := rfl
      rw [hone, hnil] at hlen
      have hsl : s.length ≠ 0 := by
        intro h0
        apply hs
        cases s with
        | mk d =>
            cases d with
            | nil => rfl
            | cons c cs => simp [String.length] at h0
      omega

/-- The head sentence of the advice list is never empty: the ROI chain
always selects one of three nonempty sentences. -/
theorem advice_head_ne_empty (roi : ℚ) :
    (if roi < 0 then negative_roi_text
     else if roi < 5 then modest_roi_text
     else solid_roi_text) ≠ "" := by
  split_ifs <;> decide

/-- The advice list of the source equals the sentence list of the
specification: the three-way ROI branch conditions coincide. -/
theorem advice_list_eq_spec (roi_percent volatility : ℚ)
    (sector_breakdown : List (String × ℚ)) :
    advice_list roi_percent volatility sector_breakdown =
      spec_sentence_list roi_percent volatility sector_breakdown := by
  unfold advice_list spec_sentence_list
  by_cases h0 : roi_percent < 0
  · simp [h0]
  · by_cases h5 : roi_percent < 5
    · simp [h0, h5, not_lt.mp h0]
    · simp [h0, h5]

/-- Claim C7: the deterministic portfolio-level advice is composed, in
order, of one ROI-tier sentence (three tiers: negative, zero to five, at
least five), one concentration warning per sector strictly above 50
percent, and one volatility warning exactly when volatility > 0.3, with
the no-specific-advice fallback when no sentence applies; this is the
specification composition spec_local_advice, verbatim. -/
theorem local_advice_matches_spec (roi_percent volatility : ℚ)
    (sector_breakdown : List (String × ℚ)) :
    generate_local_advice roi_percent volatility sector_breakdown =
      spec_local_advice roi_percent volatility sector_breakdown := by
  unfold generate_local_advice spec_local_advice
  rw [← advice_list_eq_spec roi_percent volatility sector_breakdown]
  have hcons : advice_list roi_percent volatility sector_breakdown =
      (if roi_percent < 0 then negative_roi_text
       else if roi_percent < 5 then modest_roi_text
       else solid_roi_text) ::
      (((sector_breakdown.filter (fun p => 50 < p.2)).map
          (fun p => sector_warning_text p.1 p.2))
        ++ (if 3 / 10 < volatility then [volatility_warning_text volatility] else [])) := rfl
  rw [hcons, if_neg (joinSpace_cons_ne_empty _ _ (advice_head_ne_empty roi_percent))]
  simp

/-- The running value-sum of the grouping map is preserved by assocAdd. -/
theorem sumVals_assocAdd (m : List (String × ℚ)) (sec : String) (v : ℚ) :
    ((assocAdd m sec v).map Prod.snd).sum = (m.map Prod.snd).sum + v := by
  induction m with
  | nil => simp [assocAdd]
  | cons p rest ih =>
      obtain ⟨k, x⟩ := p
      by_cases h : k = sec
      · simp [assocAdd, h]; ring
      · simp [assocAdd, h, ih]; ring

/-- The grouping fold of _calculate_sector_breakdown: the second component
is the grand total of current values, and the bucket values sum to the
same grand total. -/
theorem sector_fold_sums (ds : List HoldingDetail) (m0 : List (String × ℚ)) (t0 : ℚ) :
    (ds.foldl sectorStep (m0, t0)).2 =
        t0 + (ds.map HoldingDetail.current_value).sum ∧
    (((ds.foldl sectorStep (m0, t0)).1.map Prod.snd).sum =
        (m0.map Prod.snd).sum + (ds.map HoldingDetail.current_value).sum) := by
  induction ds generalizing m0 t0 with
  | nil => simp
  | cons d rest ih =>
      simp only [List.foldl_cons, List.map_cons, List.sum_cons, sectorStep]
      obtain ⟨ih1, ih2⟩ :=
        ih (assocAdd m0 (sectorLabel d.sector) d.current_value) (t0 + d.current_value)
      constructor
      · rw [ih1]; ring
      · rw [ih2, sumVals_assocAdd]; ring

/-- Percentage mapping distributes over the bucket sum. -/
theorem sum_map_pct (m : List (String × ℚ)) (t : ℚ) :
    ((m.map (fun p => (p.1, p.2 / t * 100))).map Prod.snd).sum =
      (m.map Prod.snd).sum / t * 100 := by
  induction m with
  | nil => simp
  | cons p rest ih =>
      simp only [List.map_cons, List.sum_cons, ih]
      ring

/-- Claim C8: the sector breakdown assigns each sector its share of the
grand total of current values; the percentages sum to exactly 100 whenever
the grand total is positive, and every sector maps to exactly 0 when the
grand total is 0. -/
theorem sector_breakdown_percentages (item_details : List HoldingDetail) :
    (0 < (item_details.map HoldingDetail.current_value).sum →
      ((calculate_sector_breakdown item_details).map Prod.snd).sum = 100) ∧
    ((item_details.map HoldingDetail.current_value).sum = 0 →
      ∀ p ∈ calculate_sector_breakdown item_details, p.2 = 0) := by
  obtain ⟨htot, hbuckets⟩ := sector_fold_sums item_details [] 0
  simp only [List.map_nil, List.sum_nil, zero_add] at htot hbuckets
  constructor
  · intro hpos
    unfold calculate_sector_breakdown
    have hpos2 : 0 < (item_details.foldl sectorStep ([], 0)).2 := by rw [htot]; exact hpos
    simp only [if_pos hpos2]
    rw [sum_map_pct, hbuckets, htot]
    field_simp
  · intro hzero
    unfold calculate_sector_breakdown
    have hz2 : ¬ 0 < (item_details.foldl sectorStep ([], 0)).2 := by
      rw [htot, hzero]; exact lt_irrefl 0
    simp only [if_neg hz2]
    intro p hp
    simp only [List.mem_map] at hp
    obtain ⟨q, -, rfl⟩ := hp
    rfl

/-- Witness for sector_breakdown_percentages: a positive-total breakdown
summing to 100 and a zero-total breakdown whose single entry is 0. -/
theorem sector_breakdown_percentages_witness :
    ((calculate_sector_breakdown
        [⟨60, some "Technology"⟩, ⟨40, some "Healthcare"⟩]).map Prod.snd).sum = 100 ∧
    (("Technology", (0 : ℚ)) : String × ℚ).2 = 0 :=
  ⟨(sector_breakdown_percentages [⟨60, some "Technology"⟩, ⟨40, some "Healthcare"⟩]).1
      (by norm_num),
   (sector_breakdown_percentages [⟨0, some "Technology"⟩]).2 (by norm_num)
      ("Technology", 0)
      (by simp [calculate_sector_breakdown, sectorStep, assocAdd, sectorLabel])⟩

/-- The valuation fold with an arbitrary starting accumulator. -/
theorem values_fold (items : List PortfolioItem) (today_data : List (String × ℚ))
    (a b : ℚ) :
    items.foldl (valuesStep today_data) (a, b) =
      (a + (items.map (fun it => it.purchase_price * it.quantity)).sum,
       b + (items.map (fun it =>
          ((List.lookup (pyUpper it.symbol) today_data).getD 0) * it.quantity)).sum) := by
  induction items generalizing a b with
  | nil => simp
  | cons it rest ih =>
      simp only [List.foldl_cons, List.map_cons, List.sum_cons, valuesStep, ih]
      simp only [Prod.mk.injEq]
      constructor <;> ring

/-- Claim C9: total investment is the sum of purchase_price times quantity,
total current value is the sum of the looked-up price (upper-cased symbol,
default 0) times quantity, and on the specification scenario (AAPL 10 at
150, MSFT 5 at 300, snapshot AAPL 165 and MSFT 290) the totals are 3000
and 3100 with an ROI of 10/3 percent, about 3.33. -/
theorem values_and_roi_formula (items : List PortfolioItem)
    (today_data : List (String × ℚ)) :
    calculate_values items today_data =
      ((items.map (fun it => it.purchase_price * it.quantity)).sum,
       (items.map (fun it =>
          ((List.lookup (pyUpper it.symbol) today_data).getD 0) * it.quantity)).sum) ∧
    calculate_values demoItems demoSnapshot = (3000, 3100) ∧
    calculate_roi 3000 3100 = 10 / 3 ∧
    |calculate_roi 3000 3100 - 333 / 100| < 1 / 100 := by
  refine ⟨?_, ?_, ?_, ?_⟩
  · unfold calculate_values
    rw [values_fold]
    simp
  · have hA : pyUpper "AAPL" = "AAPL" := by decide
    have hM : pyUpper "MSFT" = "MSFT" := by decide
    have hMA : ("MSFT" == "AAPL") = false := by decide
    norm_num [calculate_values, valuesStep, demoItems, demoSnapshot, List.lookup,
      hA, hM, hMA]
  · norm_num [calculate_roi]
  · norm_num [calculate_roi]
    rw [abs_of_pos (by norm_num)]
    norm_num

/-- Folding float addition over genuine values is ordinary summation. -/
theorem foldl_oadd_map_some (l : List ℚ) (a : ℚ) :
    (l.map some).foldl oadd (some a) = some (a + l.sum) := by
  induction l generalizing a with
  | nil => simp
  | cons x xs ih =>
      simp only [List.map_cons, List.foldl_cons, oadd, ih, List.sum_cons,
        Option.some.injEq]
      ring

/-- osum on genuine values is ordinary summation. -/
theorem osum_map_some (l : List ℚ) : osum (l.map some) = some l.sum := by
  simpa [osum] using foldl_oadd_map_some l 0

/-- Componentwise float multiplication on genuine values. -/
theorem zipWith_omul_map_some (x y : List ℚ) :
    List.zipWith omul (x.map some) (y.map some) = (List.zipWith (· * ·) x y).map some := by
  induction x generalizing y with
  | nil => simp
  | cons a xs ih =>
      cases y with
      | nil => simp
      | cons b ys => simp [omul, ih]

/-- The float dot product on genuine values is the rational dot product. -/
theorem dotOQ_map_some (x y : List ℚ) :
    dotOQ (x.map some) (y.map some) = some (dotQ x y) := by
  rw [dotOQ, zipWith_omul_map_some, osum_map_some, dotQ]

/-- Pair filtering of two genuine columns keeps every zipped pair. -/
theorem filterMap_zip_map_some (x y : List ℚ) :
    ((x.map some).zip (y.map some)).filterMap pairKeep = x.zip y := by
  rw [List.zip_map, List.filterMap_map]
  have hcomp : (pairKeep ∘ Prod.map some some) = some := by
    funext p
    obtain ⟨a, b⟩ := p
    rfl
  rw [hcomp, List.filterMap_some]

/-- The pairwise covariance of two complete equal-length columns is the
ordinary sample covariance, undefined below two rows. -/
theorem pairCov_map_some (x y : List ℚ) (hxy : x.length = y.length) :
    pairCov (x.map some) (y.map some) =
      if x.length < 2 then none else some (sCovQ x y) := by
  have hcast : (y.length : ℚ) = (x.length : ℚ) := by rw [hxy]
  simp only [pairCov, filterMap_zip_map_some]
  rw [List.length_zip, ← hxy, min_self,
    List.map_fst_zip x y hxy.le, List.map_snd_zip x y hxy.ge,
    sCovQ, meanQ, meanQ, hcast]

/-- A column with no NaN is the image of a rational column. -/
theorem all_isSome_eq_map_some (c : List OQ) (hc : ∀ x ∈ c, x.isSome) :
    ∃ cq : List ℚ, c = cq.map some ∧ cq.length = c.length := by
  induction c with
  | nil => exact ⟨[], rfl, rfl⟩
  | cons x xs ih =>
      obtain ⟨cq, hcq, hlen⟩ := ih (fun z hz => hc z (List.mem_cons_of_mem _ hz))
      obtain ⟨v, hv⟩ := Option.isSome_iff_exists.mp (hc x (List.mem_cons_self _ _))
      refine ⟨v :: cq, ?_, by simp [hlen]⟩
      rw [List.map_cons, ← hcq, hv]

/-- A looked-up value belongs to the values of the association list. -/
theorem lookup_value_mem (k : String) (m : List (String × OQ)) (v : OQ)
    (h : List.lookup k m = some v) : ∃ p ∈ m, p.2 = v := by
  induction m with
  | nil => simp [List.lookup] at h
  | cons q rest ih =>
      rcases hq : (k == q.1) with _ | _
      · rw [List.lookup, hq] at h
        obtain ⟨p, hp, hpv⟩ := ih h
        exact ⟨p, List.mem_cons_of_mem _ hp, hpv⟩
      · rw [List.lookup, hq] at h
        exact ⟨q, List.mem_cons_self _ _, Option.some.inj h⟩

/-- Float addition yields a value only when both addends are values. -/
theorem oadd_eq_some (a b : OQ) (s : ℚ) (h : oadd a b = some s) :
    a.isSome ∧ b.isSome := by
  cases a <;> cases b <;> simp_all [oadd]

/-- A NaN running total stays NaN through the position-value loop. -/
theorem valueMap_total_none (lastP : List (String × OQ))
    (items : List PortfolioItem) (m0 : List (String × OQ)) :
    (items.foldl (valueStep lastP) (m0, none)).2 = none := by
  induction items generalizing m0 with
  | nil => rfl
  | cons it rest ih =>
      have hstep : valueStep lastP (m0, none) it =
          (assocSet m0 (pyUpper it.symbol)
            (omul ((List.lookup (pyUpper it.symbol) lastP).getD (some 0)) (some it.quantity)),
           none) := by
        simp only [valueStep]
        cases homul : omul ((List.lookup (pyUpper it.symbol) lastP).getD (some 0))
          (some it.quantity) <;> rfl
      rw [List.foldl_cons, hstep]
      exact ih _

/-- Dict assignment of a genuine value preserves all-genuine values. -/
theorem assocSet_all_isSome (m : List (String × OQ)) (k : String) (v : OQ)
    (hm : ∀ p ∈ m, p.2.isSome) (hv : v.isSome) :
    ∀ p ∈ assocSet m k v, p.2.isSome := by
  induction m with
  | nil =>
      intro p hp
      simp only [assocSet, List.mem_singleton] at hp
      rw [hp]
      exact hv
  | cons q rest ih =>
      obtain ⟨k0, v0⟩ := q
      intro p hp
      by_cases hk : k0 = k
      · simp only [assocSet, if_pos hk] at hp
        rcases List.mem_cons.mp hp with h | h
        · rw [h]; exact hv
        · exact hm p (List.mem_cons_of_mem _ h)
      · simp only [assocSet, if_neg hk] at hp
        rcases List.mem_cons.mp hp with h | h
        · rw [h]; exact hm (k0, v0) (List.mem_cons_self _ _)
        · exact ih (fun z hz => hm z (List.mem_cons_of_mem _ hz)) p h

/-- When the position-value loop ends with a genuine total, every stored
position value is genuine (a NaN position poisons the total forever). -/
theorem valueMap_all_isSome (lastP : List (String × OQ))
    (items : List PortfolioItem) (m0 : List (String × OQ)) (t0 : OQ) (t : ℚ)
    (hm0 : ∀ p ∈ m0, p.2.isSome)
    (h : (items.foldl (valueStep lastP) (m0, t0)).2 = some t) :
    ∀ p ∈ (items.foldl (valueStep lastP) (m0, t0)).1, p.2.isSome := by
  induction items generalizing m0 t0 with
  | nil => exact hm0
  | cons it rest ih =>
      rw [List.foldl_cons] at h ⊢
      rcases ht1 : (valueStep lastP (m0, t0) it).2 with _ | t1
      · exfalso
        have hshape : valueStep lastP (m0, t0) it =
            ((valueStep lastP (m0, t0) it).1, (valueStep lastP (m0, t0) it).2) := rfl
        rw [hshape, ht1, valueMap_total_none] at h
        exact Option.noConfusion h
      · have hshape : valueStep lastP (m0, t0) it =
            ((valueStep lastP (m0, t0) it).1, (valueStep lastP (m0, t0) it).2) := rfl
        have hpos : ((omul ((List.lookup (pyUpper it.symbol) lastP).getD (some 0))
            (some it.quantity)) : OQ).isSome := by
          have : oadd t0 (omul ((List.lookup (pyUpper it.symbol) lastP).getD (some 0))
              (some it.quantity)) = some t1 := ht1
          exact (oadd_eq_some _ _ _ this).2
        have hm1 : ∀ p ∈ (valueStep lastP (m0, t0) it).1, p.2.isSome := by
          simp only [valueStep]
          exact assocSet_all_isSome m0 _ _ hm0 hpos
        rw [hshape, ht1] at h ⊢
        exact ih _ _ hm1 h

/-- The weight vector is always a vector of genuine floats: with a
non-positive or NaN total every weight is literally 0.0, and with a
positive total every stored position value is genuine. -/
theorem weightsOf_map_some (names : List String) (valMap : List (String × OQ)) (total : OQ)
    (hv : ∀ p ∈ valMap, p.2.isSome) :
    ∃ wq : List ℚ, weightsOf names valMap total = wq.map some ∧
      wq.length = names.length := by
  cases total with
  | none =>
      exact ⟨names.map (fun _ => 0), by simp [weightsOf], by simp⟩
  | some t =>
      by_cases ht : 0 < t
      · refine ⟨names.map (fun c =>
          (((List.lookup (pyUpper c) valMap).getD (some 0)).getD 0) / t), ?_, by simp⟩
        simp only [weightsOf, if_pos ht, List.map_map]
        refine List.map_congr_left fun c _ => ?_
        rcases hlk : List.lookup (pyUpper c) valMap with _ | v
        · simp [hlk, odiv]
        · obtain ⟨p, hp, hpv⟩ := lookup_value_mem _ _ _ hlk
          obtain ⟨vq, hvq⟩ := Option.isSome_iff_exists.mp (hpv ▸ hv p hp)
          simp [hlk, hvq, odiv]
      · exact ⟨names.map (fun _ => 0), by simp [weightsOf, if_neg ht], by simp⟩

/-- The covariance matrix of complete equal-length columns (at least two
rows) is the genuine sample covariance matrix. -/
theorem covMatrix_map_some (cols : List (List ℚ)) (m : ℕ) (hm : 2 ≤ m)
    (hlen : ∀ c ∈ cols, c.length = m) :
    covMatrix (cols.map (fun c => c.map some)) =
      (covQ cols).map (fun r => r.map some) := by
  simp only [covMatrix, covQ, List.map_map]
  refine List.map_congr_left fun ci hci => ?_
  simp only [Function.comp, List.map_map]
  refine List.map_congr_left fun cj hcj => ?_
  simp only [Function.comp]
  rw [pairCov_map_some ci cj (by rw [hlen ci hci, hlen cj hcj]),
    if_neg (by rw [hlen ci hci]; omega)]

/-- The rational dot product as an indexed sum. -/
theorem dotQ_eq_sum (x y : List ℚ) (h : x.length = y.length) :
    dotQ x y = ∑ i in Finset.range x.length, x.getD i 0 * y.getD i 0 := by
  induction x generalizing y with
  | nil => simp [dotQ]
  | cons a xs ih =>
      cases y with
      | nil => simp at h
      | cons b ys =>
          simp only [List.length_cons, Nat.succ.injEq] at h
          have hx : dotQ (a :: xs) (b :: ys) = a * b + dotQ xs ys := by
            simp [dotQ]
          rw [hx, List.length_cons, Finset.sum_range_succ']
          simp only [List.getD_cons_succ, List.getD_cons_zero]
          rw [← ih ys h]
          ring

/-- A mapped zip of two columns of length m as an indexed sum. -/
theorem zip_map_sum_eq (f : ℚ → ℚ → ℚ) :
    ∀ (m : ℕ) (x y : List ℚ), x.length = m → y.length = m →
    ((x.zip y).map (fun p => f p.1 p.2)).sum
      = ∑ r in Finset.range m, f (x.getD r 0) (y.getD r 0) := by
  intro m
  induction m with
  | zero =>
      intro x y hx hy
      rw [List.length_eq_zero] at hx hy
      subst hx; subst hy
      simp
  | succ n ih =>
      intro x y hx hy
      cases x with
      | nil => simp at hx
      | cons a xs =>
          cases y with
          | nil => simp at hy
          | cons b ys =>
              simp only [List.length_cons, Nat.succ.injEq] at hx hy
              rw [List.zip_cons_cons, List.map_cons, List.sum_cons,
                Finset.sum_range_succ']
              simp only [List.getD_cons_succ, List.getD_cons_zero]
              rw [ih xs ys hx hy]
              ring

/-- The sample covariance of two complete columns of length m as an
indexed sum of centred products. -/
theorem sCovQ_eq_sum (x y : List ℚ) (m : ℕ) (hx : x.length = m) (hy : y.length = m) :
    sCovQ x y = (∑ r in Finset.range m,
        (x.getD r 0 - meanQ x) * (y.getD r 0 - meanQ y)) / ((m : ℚ) - 1) := by
  rw [sCovQ, zip_map_sum_eq (fun a b => (a - meanQ x) * (b - meanQ y)) m x y hx hy, hx]

/-- Double sums of products of one family against itself collapse to a sum
of squares. -/
theorem weighted_gram_sq (k m : ℕ) (b : ℕ → ℕ → ℚ) :
    ∑ i in Finset.range k, ∑ j in Finset.range k, ∑ r in Finset.range m, b i r * b j r
      = ∑ r in Finset.range m, (∑ i in Finset.range k, b i r) ^ 2 := by
  calc ∑ i in Finset.range k, ∑ j in Finset.range k, ∑ r in Finset.range m, b i r * b j r
      = ∑ i in Finset.range k, ∑ r in Finset.range m,
          ∑ j in Finset.range k, b i r * b j r :=
        Finset.sum_congr rfl fun i _ => Finset.sum_comm
    _ = ∑ r in Finset.range m, ∑ i in Finset.range k,
          ∑ j in Finset.range k, b i r * b j r := Finset.sum_comm
    _ = ∑ r in Finset.range m, (∑ i in Finset.range k, b i r) ^ 2 := by
        refine Finset.sum_congr rfl fun r _ => ?_
        rw [sq, Finset.sum_mul_sum]

/-- The quadratic form of the sample covariance matrix, written as an
indexed double sum. -/
theorem quadForm_eq_sum (cols : List (List ℚ)) (w : List ℚ) (hw : w.length = cols.length) :
    dotQ w ((covQ cols).map (fun row => dotQ row w)) =
      ∑ i in Finset.range cols.length, ∑ j in Finset.range cols.length,
        w.getD i 0 * w.getD j 0 * sCovQ (cols.getD i []) (cols.getD j []) := by
  have hcovlen : (covQ cols).length = cols.length := by simp [covQ]
  have hmaplen : ((covQ cols).map (fun row => dotQ row w)).length = cols.length := by
    rw [List.length_map, hcovlen]
  rw [dotQ_eq_sum w _ (by rw [hw, hmaplen]), hw]
  refine Finset.sum_congr rfl fun i hi => ?_
  have hik : i < cols.length := Finset.mem_range.mp hi
  have h1 : ((covQ cols).map (fun row => dotQ row w)).getD i 0
      = dotQ ((covQ cols).getD i []) w := by
    rw [List.getD_eq_getElem _ _ (by rw [hmaplen]; exact hik), List.getElem_map,
      List.getD_eq_getElem _ _ (by rw [hcovlen]; exact hik)]
  have h2 : (covQ cols).getD i [] = cols.map (fun cj => sCovQ (cols.getD i []) cj) := by
    rw [covQ, List.getD_eq_getElem _ _ (by rw [List.length_map]; exact hik),
      List.getElem_map, List.getD_eq_getElem _ _ hik]
  rw [h1, h2, dotQ_eq_sum _ w (by rw [List.length_map, hw]), List.length_map]
  rw [Finset.mul_sum]
  refine Finset.sum_congr rfl fun j hj => ?_
  have hjk : j < cols.length := Finset.mem_range.mp hj
  have h3 : (cols.map (fun cj => sCovQ (cols.getD i []) cj)).getD j 0
      = sCovQ (cols.getD i []) (cols.getD j []) := by
    rw [List.getD_eq_getElem _ _ (by rw [List.length_map]; exact hjk), List.getElem_map,
      List.getD_eq_getElem _ _ hjk]
  rw [h3]
  ring

/-- The quadratic form of the sample covariance matrix of complete
equal-length columns with at least two rows is non-negative. -/
theorem quadForm_nonneg (cols : List (List ℚ)) (m : ℕ) (hm : 2 ≤ m)
    (hlen : ∀ c ∈ cols, c.length = m) (w : List ℚ) (hw : w.length = cols.length) :
    0 ≤ dotQ w ((covQ cols).map (fun row => dotQ row w)) := by
  rw [quadForm_eq_sum cols w hw]
  have hmem : ∀ i, i < cols.length → cols.getD i [] ∈ cols := by
    intro i hik
    rw [List.getD_eq_getElem _ _ hik]
    exact List.getElem_mem hik
  have hterm : ∀ i ∈ Finset.range cols.length, ∀ j ∈ Finset.range cols.length,
      w.getD i 0 * w.getD j 0 * sCovQ (cols.getD i []) (cols.getD j [])
        = (∑ r in Finset.range m,
            (w.getD i 0 * ((cols.getD i []).getD r 0 - meanQ (cols.getD i []))) *
            (w.getD j 0 * ((cols.getD j []).getD r 0 - meanQ (cols.getD j [])))) /
          ((m : ℚ) - 1) := by
    intro i hi j hj
    rw [sCovQ_eq_sum _ _ m (hlen _ (hmem i (Finset.mem_range.mp hi)))
      (hlen _ (hmem j (Finset.mem_range.mp hj)))]
    rw [← mul_div_assoc]
    congr 1
    rw [Finset.mul_sum]
    exact Finset.sum_congr rfl fun r _ => by ring
  have hrw : ∑ i in Finset.range cols.length, ∑ j in Finset.range cols.length,
      w.getD i 0 * w.getD j 0 * sCovQ (cols.getD i []) (cols.getD j [])
    = (∑ r in Finset.range m, (∑ i in Finset.range cols.length,
        w.getD i 0 * ((cols.getD i []).getD r 0 - meanQ (cols.getD i []))) ^ 2) /
      ((m : ℚ) - 1) := by
    rw [← weighted_gram_sq cols.length m
      (fun i r => w.getD i 0 * ((cols.getD i []).getD r 0 - meanQ (cols.getD i [])))]
    rw [Finset.sum_div]
    refine Finset.sum_congr rfl fun i hi => ?_
    rw [Finset.sum_div]
    exact Finset.sum_congr rfl fun j hj => hterm i hi j hj
  rw [hrw]
  apply div_nonneg
  · exact Finset.sum_nonneg fun r _ => sq_nonneg _
  · have h2 : (2 : ℚ) ≤ (m : ℚ) := by exact_mod_cast hm
    linarith

/-- Unfolding of the volatility computation when the quadratic step is
reached. -/
theorem annualVarAt_some (items : List PortfolioItem) (h : HistData) (cc : CloseCols)
    (hcc : h.close = some cc) (hne : histEmpty h = false)
    (hcdf : (closeTable items cc).isEmpty = false)
    (hkept : (keptOf items cc h.numRows).isEmpty = false) :
    annualVarAt items h = some (omul (dailyVarAt items cc h.numRows) (some 252)) := by
  simp [annualVarAt, hne, hcc, hcdf, hkept]

/-- An empty downloaded history short-circuits to volatility 0.0. -/
theorem vol_of_histEmpty (items : List PortfolioItem) (h : HistData)
    (he : histEmpty h = true) :
    calculate_portfolio_volatility items h = Except.ok (some 0) := by
  simp [calculate_portfolio_volatility, annualVarAt, he]

/-- A history without a Close block short-circuits to volatility 0.0 (the
KeyError is caught). -/
theorem vol_of_no_close (items : List PortfolioItem) (h : HistData)
    (hc : h.close = none) :
    calculate_portfolio_volatility items h = Except.ok (some 0) := by
  by_cases he : histEmpty h
  · simp [calculate_portfolio_volatility, annualVarAt, he]
  · simp [calculate_portfolio_volatility, annualVarAt, he, hc]

/-- A close table with no usable column short-circuits to volatility
0.0. -/
theorem vol_of_closeTable_empty (items : List PortfolioItem) (h : HistData)
    (cc : CloseCols) (hcc : h.close = some cc)
    (hempty : (closeTable items cc).isEmpty = true) :
    calculate_portfolio_volatility items h = Except.ok (some 0) := by
  by_cases he : histEmpty h <;>
    simp [calculate_portfolio_volatility, annualVarAt, he, hcc, hempty]

/-- An empty daily-return table short-circuits to volatility 0.0. -/
theorem vol_of_kept_empty (items : List PortfolioItem) (h : HistData)
    (cc : CloseCols) (hcc : h.close = some cc)
    (hkept : (keptOf items cc h.numRows).isEmpty = true) :
    calculate_portfolio_volatility items h = Except.ok (some 0) := by
  by_cases he : histEmpty h
  · simp [calculate_portfolio_volatility, annualVarAt, he]
  · by_cases hcd : (closeTable items cc).isEmpty <;>
      simp [calculate_portfolio_volatility, annualVarAt, he, hcc, hcd, hkept]

/-- Mapping a constant over a list is replication. -/
theorem map_const_replicate {α β : Type} (l : List α) (b : β) :
    l.map (fun _ => b) = List.replicate l.length b := by
  induction l with
  | nil => rfl
  | cons a t ih => simp [ih, List.replicate_succ]

/-- Dot product with a zero left vector. -/
theorem dotQ_replicate_zero_left (k : ℕ) (y : List ℚ) :
    dotQ (List.replicate k 0) y = 0 := by
  induction k generalizing y with
  | zero => simp [dotQ]
  | succ n ih =>
      cases y with
      | nil => simp [dotQ]
      | cons b ys => simp [dotQ, List.replicate_succ] at ih ⊢; simpa using ih ys

/-- Dot product with a zero right vector. -/
theorem dotQ_replicate_zero_right (k : ℕ) (x : List ℚ) :
    dotQ x (List.replicate k 0) = 0 := by
  induction k generalizing x with
  | zero => simp [dotQ]
  | succ n ih =>
      cases x with
      | nil => simp [dotQ]
      | cons b xs => simp [dotQ, List.replicate_succ] at ih ⊢; simpa using ih xs

/-- The weight vector is always a list of genuine floats. -/
theorem weightsAt_map_some (items : List PortfolioItem) (cc : CloseCols) :
    ∃ wq : List ℚ, weightsAt items cc = wq.map some ∧
      wq.length = (closeTable items cc).length := by
  rcases htot : (buildValueMap items (lastRow (closeTable items cc))).2 with _ | t
  · refine ⟨(closeTable items cc).map (fun _ => 0), ?_, by simp⟩
    rw [weightsAt, htot]
    simp only [weightsOf, List.map_map]
    exact List.map_congr_left fun p hp => rfl
  · have hv : ∀ p ∈ (buildValueMap items (lastRow (closeTable items cc))).1, p.2.isSome := by
      apply valueMap_all_isSome _ _ _ _ t (by simp)
      exact htot
    obtain ⟨wq, hwq, hlen⟩ :=
      weightsOf_map_some ((closeTable items cc).map Prod.fst)
        (buildValueMap items (lastRow (closeTable items cc))).1 (some t) hv
    refine ⟨wq, ?_, by rw [hlen, List.length_map]⟩
    rw [weightsAt, htot, hwq]

/-- Every restricted daily-return column has exactly one entry per kept
row. -/
theorem drCols_length (items : List PortfolioItem) (cc : CloseCols) (n : ℕ) :
    ∀ c ∈ drColsOf items cc n, c.length = (keptOf items cc n).length := by
  intro c hc
  simp only [drColsOf, List.mem_map] at hc
  obtain ⟨c0, -, rfl⟩ := hc
  simp [selectRows]

/-- A table of NaN-free columns is the image of a rational table. -/
theorem all_cols_eq_map_some (cs : List (List OQ))
    (h : ∀ c ∈ cs, ∀ x ∈ c, x.isSome) :
    ∃ cqs : List (List ℚ), cs = cqs.map (fun c => c.map some) := by
  induction cs with
  | nil => exact ⟨[], rfl⟩
  | cons c rest ih =>
      obtain ⟨cqs, hcqs⟩ := ih (fun z hz => h z (List.mem_cons_of_mem _ hz))
      obtain ⟨cq, hcq, -⟩ := all_isSome_eq_map_some c (h c (List.mem_cons_self _ _))
      exact ⟨cq :: cqs, by rw [List.map_cons, ← hcq, ← hcqs]⟩

/-- With a complete restricted return table of at least two rows, the
daily variance is a genuine non-negative rational. -/
theorem dailyVar_complete (items : List PortfolioItem) (cc : CloseCols) (n : ℕ)
    (hL : 2 ≤ (keptOf items cc n).length)
    (hcomp : ∀ c ∈ drColsOf items cc n, ∀ x ∈ c, x.isSome) :
    ∃ d : ℚ, dailyVarAt items cc n = some d ∧ 0 ≤ d := by
  obtain ⟨rQ, hrQ⟩ := all_cols_eq_map_some _ hcomp
  obtain ⟨wq, hwq, hwlen⟩ := weightsAt_map_some items cc
  have hdrlen : (drColsOf items cc n).length = (closeTable items cc).length := by
    simp [drColsOf, retColsOf]
  have hrQlen : rQ.length = (closeTable items cc).length := by
    rw [← hdrlen, hrQ, List.length_map]
  have hcollen : ∀ cq ∈ rQ, cq.length = (keptOf items cc n).length := by
    intro cq hcq
    have hmem : cq.map some ∈ drColsOf items cc n := by
      rw [hrQ]
      exact List.mem_map_of_mem _ hcq
    have := drCols_length items cc n _ hmem
    simpa using this
  have hcov : covMatrix (drColsOf items cc n) = (covQ rQ).map (fun r => r.map some) := by
    rw [hrQ]
    exact covMatrix_map_some rQ _ hL hcollen
  have hinner : (covMatrix (drColsOf items cc n)).map
        (fun row => dotOQ row (weightsAt items cc))
      = ((covQ rQ).map (fun row => dotQ row wq)).map some := by
    rw [hcov, hwq, List.map_map, List.map_map]
    refine List.map_congr_left fun row hrow => ?_
    simp only [Function.comp]
    exact dotOQ_map_some row wq
  refine ⟨dotQ wq ((covQ rQ).map (fun row => dotQ row wq)), ?_, ?_⟩
  · rw [dailyVarAt, hinner, hwq, dotOQ_map_some]
  · exact quadForm_nonneg rQ _ hL hcollen wq (by rw [hwlen, hrQlen])


/-- Staged evaluation of the volatility pipeline on the partially missing
history histC10: the pairwise-deleted covariance matrix is not positive
semidefinite and the annualized variance comes out negative. -/
theorem annualVar_on_histC10 :
    annualVarAt itemsC10 histC10 = some (some (-(189/8))) := by
  have hA : pyUpper "AAA" = "AAA" := by decide
  have hB : pyUpper "BBB" = "BBB" := by decide
  have sAB : ("AAA" : String) ≠ "BBB" := by decide
  have sBA : (("BBB" : String) == "AAA") = false := by decide
  have sAA : (("AAA" : String) == "AAA") = true := by decide
  have sBB : (("BBB" : String) == "BBB") = true := by decide
  have sABb : (("AAA" : String) == "BBB") = false := by decide
  have hct : closeTable itemsC10 ccC10 =
      [("AAA", [some 1, some 1, some 1, some 1, some (1/2), some (3/4)]),
       ("BBB", [none, none, none, some 1, some (3/2), some (3/4)])] := by
    norm_num [closeTable, ccC10, closeDF, dropAllNaCols]
  have hret : retColsOf itemsC10 ccC10 =
      [[none, some 0, some 0, some 0, some (-(1/2)), some (1/2)],
       [none, none, none, none, some (1/2), some (-(1/2))]] := by
    norm_num [retColsOf, hct, pctChangeCol, ffillFrom, pctOne]
  have hkept : keptOf itemsC10 ccC10 6 = [1, 2, 3, 4, 5] := by
    norm_num [keptOf, hret, keptIdxs, List.range_succ]
  have hdr : drColsOf itemsC10 ccC10 6 =
      [[some 0, some 0, some 0, some (-(1/2)), some (1/2)],
       [none, none, none, some (1/2), some (-(1/2))]] := by
    norm_num [drColsOf, hret, hkept, selectRows]
  have hcov : covMatrix (drColsOf itemsC10 ccC10 6) =
      [[some (1/8), some (-(1/2))], [some (-(1/2)), some (1/2)]] := by
    norm_num [hdr, covMatrix, pairCov, pairKeep, List.filterMap_cons, meanQ]
  have hlast : lastRow (closeTable itemsC10 ccC10) =
      [("AAA", some (3/4)), ("BBB", some (3/4))] := by
    norm_num [hct, lastRow]
  have hvm : buildValueMap itemsC10 (lastRow (closeTable itemsC10 ccC10)) =
      ([("AAA", some (3/4)), ("BBB", some (3/4))], some (3/2)) := by
    norm_num [hlast, buildValueMap, itemsC10, valueStep, hA, hB, List.lookup,
      assocSet, omul, oadd, sAB, sBA, sAA, sBB, sABb]
  have hw : weightsAt itemsC10 ccC10 = [some (1/2), some (1/2)] := by
    rw [weightsAt, hvm, hct]
    norm_num [weightsOf, hA, hB, List.lookup, odiv, sAB, sBA, sAA, sBB, sABb]
  have hdv : dailyVarAt itemsC10 ccC10 6 = some (-(3/32)) := by
    norm_num [dailyVarAt, hcov, hw, dotOQ, osum, omul, oadd]
  have hav : annualVarAt itemsC10 histC10 =
      some (omul (dailyVarAt itemsC10 ccC10 6) (some 252)) := by
    apply annualVarAt_some itemsC10 histC10 ccC10 rfl
    · norm_num [histEmpty, histC10, closeColCount, ccC10]
    · norm_num [hct]
    · norm_num [histC10, hkept]
  rw [hav, hdv]
  norm_num [omul]

/-- Counterexample to claim C10 as stated: on a history in which one
symbol starts trading mid-window, the quadratic-form step produces the
negative sqrt argument -189/8, and math.sqrt raises ValueError (which
propagates out of _calculate_portfolio_volatility). -/
theorem sqrt_negative_argument_counterexample :
    annualVarAt itemsC10 histC10 = some (some (-(189/8))) ∧
    (-(189/8) : ℚ) < 0 ∧
    calculate_portfolio_volatility itemsC10 histC10 =
      Except.error "ValueError: math domain error" := by
  refine ⟨annualVar_on_histC10, by norm_num, ?_⟩
  rw [calculate_portfolio_volatility, annualVar_on_histC10]
  norm_num [mathSqrt]

/-- Claim C10 (amended): whenever the volatility computation reaches the
quadratic-form step and the retained daily-return table is complete (no
NaN entries) with at least two rows, the argument handed to math.sqrt is a
defined non-negative rational, so the square root neither raises nor
returns NaN and the volatility is the non-negative real square root. -/
theorem sqrt_argument_nonneg_on_complete_returns (items : List PortfolioItem)
    (h : HistData) (cc : CloseCols) (hcc : h.close = some cc)
    (hne : histEmpty h = false)
    (hcdf : (closeTable items cc).isEmpty = false)
    (hL : 2 ≤ (keptOf items cc h.numRows).length)
    (hcomp : ∀ c ∈ drColsOf items cc h.numRows, ∀ x ∈ c, x.isSome) :
    0 ≤ sqrtArgOf items h ∧
    annualVarAt items h = some (some (sqrtArgOf items h)) ∧
    calculate_portfolio_volatility items h =
      Except.ok (some (Real.sqrt ((sqrtArgOf items h : ℚ) : ℝ))) := by
  have hkept : (keptOf items cc h.numRows).isEmpty = false := by
    cases hk : keptOf items cc h.numRows with
    | nil => rw [hk] at hL; simp at hL
    | cons a t => simp
  obtain ⟨d, hd, hdpos⟩ := dailyVar_complete items cc h.numRows hL hcomp
  have hav : annualVarAt items h = some (some (d * 252)) := by
    rw [annualVarAt_some items h cc hcc hne hcdf hkept, hd]
    rfl
  have harg : sqrtArgOf items h = d * 252 := by
    rw [sqrtArgOf, hav]
    rfl
  have hnn : 0 ≤ sqrtArgOf items h := by
    rw [harg]
    exact mul_nonneg hdpos (by norm_num)
  refine ⟨hnn, by rw [hav, harg], ?_⟩
  rw [calculate_portfolio_volatility, hav, ← harg]
  simp [mathSqrt, not_lt.mpr hnn]

/-- Witness for the amended claim C10 on a complete two-symbol history. -/
theorem sqrt_argument_nonneg_on_complete_returns_witness :
    0 ≤ sqrtArgOf itemsC10 histC10W ∧
    annualVarAt itemsC10 histC10W = some (some (sqrtArgOf itemsC10 histC10W)) ∧
    calculate_portfolio_volatility itemsC10 histC10W =
      Except.ok (some (Real.sqrt ((sqrtArgOf itemsC10 histC10W : ℚ) : ℝ))) := by
  have hkept : keptOf itemsC10 ccC10W 3 = [1, 2] := by
    norm_num [keptOf, retColsOf, closeTable, ccC10W, closeDF, dropAllNaCols,
      pctChangeCol, ffillFrom, pctOne, keptIdxs, List.range_succ]
  refine sqrt_argument_nonneg_on_complete_returns itemsC10 histC10W ccC10W rfl
    (by norm_num [histEmpty, histC10W, closeColCount, ccC10W])
    (by norm_num [closeTable, ccC10W, closeDF, dropAllNaCols])
    (by rw [show histC10W.numRows = 3 from rfl, hkept]; norm_num)
    ?_
  rw [show histC10W.numRows = 3 from rfl]
  have hdr : drColsOf itemsC10 ccC10W 3 =
      [[some 1, some 1], [some 2, some 2]] := by
    rw [drColsOf, hkept]
    norm_num [retColsOf, closeTable, ccC10W, closeDF, dropAllNaCols,
      pctChangeCol, ffillFrom, pctOne, selectRows]
  rw [hdr]
  intro c hc x hx
  rcases List.mem_cons.mp hc with h1 | h1
  · subst h1
    rcases List.mem_cons.mp hx with h2 | h2
    · rw [h2]; rfl
    · rcases List.mem_cons.mp h2 with h3 | h3
      · rw [h3]; rfl
      · simp at h3
  · rcases List.mem_cons.mp h1 with h2 | h2
    · subst h2
      rcases List.mem_cons.mp hx with h3 | h3
      · rw [h3]; rfl
      · rcases List.mem_cons.mp h3 with h4 | h4
        · rw [h4]; rfl
        · simp at h4
    · simp at h2


/-- getD inside a replicated list. -/
theorem getD_replicate_lt {α : Type} (a d : α) :
    ∀ (n r : ℕ), r < n → (List.replicate n a).getD r d = a := by
  intro n
  induction n with
  | zero => intro r hr; omega
  | succ k ih =>
      intro r hr
      cases r with
      | zero => simp [List.replicate_succ]
      | succ j =>
          rw [List.replicate_succ, List.getD_cons_succ]
          exact ih j (by omega)

/-- Forward filling changes nothing on a NaN-free column. -/
theorem ffill_map_some (l : List ℚ) : ∀ prev, ffillFrom prev (l.map some) = l.map some := by
  induction l with
  | nil => intro prev; rfl
  | cons a t ih => intro prev; simp [ffillFrom, ih]

/-- pct_change of a constant nonzero price column: one leading NaN, then
zero returns. -/
theorem pct_replicate (v : ℚ) (hv : v ≠ 0) (R : ℕ) (hR : 1 ≤ R) :
    pctChangeCol (List.replicate R (some v)) =
      none :: List.replicate (R - 1) (some 0) := by
  obtain ⟨n, rfl⟩ : ∃ n, R = n + 1 := ⟨R - 1, by omega⟩
  have hmap : List.replicate (n + 1) (some v) = (List.replicate (n + 1) v).map some := by
    rw [List.map_replicate]
  rw [show pctChangeCol (List.replicate (n + 1) (some v)) =
      none :: List.zipWith pctOne (ffillFrom none (List.replicate (n + 1) (some v)))
        (ffillFrom none (List.replicate (n + 1) (some v))).tail from by
    rw [List.replicate_succ, pctChangeCol, ← List.replicate_succ]]
  rw [hmap, ffill_map_some, ← hmap]
  have htail : (List.replicate (n + 1) (some v)).tail = List.replicate n (some v) := by
    rw [List.replicate_succ]
    rfl
  rw [htail, List.zipWith_replicate]
  have : pctOne (some v) (some v) = some 0 := by
    simp [pctOne, hv]
  rw [this]
  simp

/-- The rows kept by dropna(how="all") when every column is NaN exactly in
row zero: rows 1 .. R-1 in order. -/
theorem keptIdxs_uniform (cols : List (List OQ)) (R : ℕ) (hR : 1 ≤ R)
    (hcols : cols ≠ [])
    (hhead : ∀ c ∈ cols, c.getD 0 none = none)
    (hsome : ∀ c ∈ cols, ∀ i, 1 ≤ i → i < R → (c.getD i none).isSome) :
    keptIdxs cols R = (List.range (R - 1)).map Nat.succ := by
  obtain ⟨n, rfl⟩ : ∃ n, R = n + 1 := ⟨R - 1, by omega⟩
  rw [keptIdxs, List.range_succ_eq_map, List.filter_cons]
  have hp0 : (cols.any (fun c => (c.getD 0 none).isSome)) = false := by
    rw [List.any_eq_false]
    intro c hc
    rw [hhead c hc]
    simp
  rw [hp0]
  simp only [Bool.false_eq_true, if_false]
  rw [List.filter_map]
  have hall : ∀ j ∈ List.range n,
      ((fun i => cols.any (fun c => (c.getD i none).isSome)) ∘ Nat.succ) j = true := by
    intro j hj
    obtain ⟨c0, hc0⟩ : ∃ c0, c0 ∈ cols := by
      cases cols with
      | nil => exact absurd rfl hcols
      | cons a t => exact ⟨a, List.mem_cons_self _ _⟩
    simp only [Function.comp]
    rw [List.any_eq_true]
    exact ⟨c0, hc0, hsome c0 hc0 (j + 1) (by omega)
      (by have := List.mem_range.mp hj; omega)⟩
  rw [List.filter_eq_self.mpr hall]
  simp

/-- Reading a list back off its own indices. -/
theorem map_range_getD {α : Type} (l : List α) (d : α) :
    (List.range l.length).map (fun i => l.getD i d) = l := by
  apply List.ext_getElem
  · simp
  · intro i h1 h2
    have hi : i < l.length := by simpa using h1
    rw [List.getElem_map, List.getElem_range, List.getD_eq_getElem l d hi]

/-- Row selection of the shifted indices reads off the column tail. -/
theorem selectRows_cons_shift (t : List OQ) :
    selectRows (none :: t) ((List.range t.length).map Nat.succ) = t := by
  rw [selectRows, List.map_map]
  have hfun : ((fun i => (none :: t).getD i none) ∘ Nat.succ) =
      fun j => t.getD j none := by
    funext j
    simp [List.getD_cons_succ]
  rw [hfun, map_range_getD]

/-- The sample covariance of two zero columns is zero. -/
theorem sCovQ_replicate_zero (L : ℕ) :
    sCovQ (List.replicate L 0) (List.replicate L 0) = 0 := by
  rw [sCovQ_eq_sum _ _ L (by simp) (by simp)]
  have hmean : meanQ (List.replicate L (0 : ℚ)) = 0 := by
    simp [meanQ, List.sum_replicate]
  have : ∀ r ∈ Finset.range L,
      ((List.replicate L (0 : ℚ)).getD r 0 - meanQ (List.replicate L 0)) *
      ((List.replicate L (0 : ℚ)).getD r 0 - meanQ (List.replicate L 0)) = 0 := by
    intro r hr
    rw [hmean, getD_replicate_lt _ _ _ _ (Finset.mem_range.mp hr)]
    ring
  rw [Finset.sum_congr rfl this]
  simp

/-- The pairwise covariance of two zero-return columns with at least two
rows is the float 0. -/
theorem pairCov_replicate_zero (L : ℕ) (hL : 2 ≤ L) :
    pairCov (List.replicate L (some 0)) (List.replicate L (some 0)) = some 0 := by
  have hmap : List.replicate L (some (0 : ℚ)) = (List.replicate L (0 : ℚ)).map some := by
    rw [List.map_replicate]
  rw [hmap, pairCov_map_some _ _ rfl]
  rw [if_neg (by simp; omega), sCovQ_replicate_zero]

/-- With a non-positive genuine total the weight vector is all zeros. -/
theorem weightsAt_zero_of_total_nonpos (items : List PortfolioItem) (cc : CloseCols)
    (t : ℚ) (htot : totalValAt items cc = some t) (ht : ¬ 0 < t) :
    weightsAt items cc = List.replicate (closeTable items cc).length (some 0) := by
  rw [weightsAt, show (buildValueMap items (lastRow (closeTable items cc))).2 = some t
    from htot]
  rw [weightsOf]
  have : ∀ p ∈ (closeTable items cc).map Prod.fst,
      (fun c =>
        match some t with
        | some t => if 0 < t then
            odiv ((List.lookup (pyUpper c)
              (buildValueMap items (lastRow (closeTable items cc))).1).getD (some 0))
              (some t)
          else some 0
        | none => some 0) p = (fun _ => (some (0 : ℚ))) p := by
    intro p hp
    simp [ht]
  rw [List.map_congr_left this, map_const_replicate, List.length_map]

/-- All-zero weights with a complete return table give daily variance 0. -/
theorem dailyVar_zero_weights (items : List PortfolioItem) (cc : CloseCols) (n : ℕ)
    (hw : weightsAt items cc = List.replicate (closeTable items cc).length (some 0))
    (hL : 2 ≤ (keptOf items cc n).length)
    (hcomp : ∀ c ∈ drColsOf items cc n, ∀ x ∈ c, x.isSome) :
    dailyVarAt items cc n = some 0 := by
  obtain ⟨rQ, hrQ⟩ := all_cols_eq_map_some _ hcomp
  have hcollen : ∀ cq ∈ rQ, cq.length = (keptOf items cc n).length := by
    intro cq hcq
    have hmem : cq.map some ∈ drColsOf items cc n := by
      rw [hrQ]
      exact List.mem_map_of_mem _ hcq
    simpa using drCols_length items cc n _ hmem
  have hcov : covMatrix (drColsOf items cc n) = (covQ rQ).map (fun r => r.map some) := by
    rw [hrQ]
    exact covMatrix_map_some rQ _ hL hcollen
  set k := (closeTable items cc).length with hk
  have hzero : List.replicate k (some (0 : ℚ)) = (List.replicate k (0 : ℚ)).map some := by
    rw [List.map_replicate]
  have hinner : (covMatrix (drColsOf items cc n)).map
        (fun row => dotOQ row (weightsAt items cc))
      = ((covQ rQ).map (fun row => dotQ row (List.replicate k 0))).map some := by
    rw [hcov, hw, hzero, List.map_map, List.map_map]
    refine List.map_congr_left fun row hrow => ?_
    simp only [Function.comp]
    exact dotOQ_map_some row (List.replicate k 0)
  rw [dailyVarAt, hinner, hw, hzero, dotOQ_map_some, dotQ_replicate_zero_left]

/-- An all-zero covariance matrix gives daily variance 0, whatever the
weights are. -/
theorem dailyVar_zero_cov (items : List PortfolioItem) (cc : CloseCols) (n : ℕ)
    (hcov : ∀ row ∈ covMatrix (drColsOf items cc n), ∀ x ∈ row, x = some 0) :
    dailyVarAt items cc n = some 0 := by
  obtain ⟨wq, hwq, hwlen⟩ := weightsAt_map_some items cc
  have hrow : ∀ row ∈ covMatrix (drColsOf items cc n),
      dotOQ row (weightsAt items cc) = some 0 := by
    intro row hr
    have : row = List.replicate row.length (some 0) := by
      apply List.eq_replicate_of_mem
      intro x hx
      exact hcov row hr x hx
    rw [this, show List.replicate row.length (some (0:ℚ)) =
        (List.replicate row.length (0:ℚ)).map some from by rw [List.map_replicate],
      hwq, dotOQ_map_some, dotQ_replicate_zero_left]
  have hinner : (covMatrix (drColsOf items cc n)).map
        (fun row => dotOQ row (weightsAt items cc))
      = List.replicate (covMatrix (drColsOf items cc n)).length (some 0) := by
    rw [List.map_congr_left hrow, map_const_replicate]
  rw [dailyVarAt, hinner, hwq,
    show List.replicate (covMatrix (drColsOf items cc n)).length (some (0:ℚ)) =
      (List.replicate (covMatrix (drColsOf items cc n)).length (0:ℚ)).map some from by
        rw [List.map_replicate],
    dotOQ_map_some, dotQ_replicate_zero_right]

/-- When the daily variance is the float 0, the volatility is 0. -/
theorem calc_of_daily_zero (items : List PortfolioItem) (h : HistData) (cc : CloseCols)
    (hcc : h.close = some cc) (hne : histEmpty h = false)
    (hcdf : (closeTable items cc).isEmpty = false)
    (hkept : (keptOf items cc h.numRows).isEmpty = false)
    (hdv : dailyVarAt items cc h.numRows = some 0) :
    calculate_portfolio_volatility items h = Except.ok (some 0) := by
  rw [calculate_portfolio_volatility,
    annualVarAt_some items h cc hcc hne hcdf hkept, hdv]
  norm_num [omul, mathSqrt]


/-- Staged evaluation: on the two-row constant history the covariance is
NaN and so is the annualized variance. -/
theorem annualVar_on_histC3 : annualVarAt itemsC3 histC3 = some none := by
  have hA : pyUpper "AAPL" = "AAPL" := by decide
  have sAA : (("AAPL" : String) == "AAPL") = true := by decide
  have hct : closeTable itemsC3 (CloseCols.series [some 1, some 1]) =
      [("AAPL", [some 1, some 1])] := by
    norm_num [closeTable, closeDF, dropAllNaCols, singleColName, itemsC3, hA]
  have hret : retColsOf itemsC3 (CloseCols.series [some 1, some 1]) =
      [[none, some 0]] := by
    norm_num [retColsOf, hct, pctChangeCol, ffillFrom, pctOne]
  have hkept : keptOf itemsC3 (CloseCols.series [some 1, some 1]) 2 = [1] := by
    norm_num [keptOf, hret, keptIdxs, List.range_succ]
  have hdr : drColsOf itemsC3 (CloseCols.series [some 1, some 1]) 2 =
      [[some 0]] := by
    norm_num [drColsOf, hret, hkept, selectRows]
  have hcov : covMatrix (drColsOf itemsC3 (CloseCols.series [some 1, some 1]) 2) =
      [[none]] := by
    norm_num [hdr, covMatrix, pairCov, pairKeep, List.filterMap_cons]
  have hlast : lastRow (closeTable itemsC3 (CloseCols.series [some 1, some 1])) =
      [("AAPL", some 1)] := by
    norm_num [hct, lastRow]
  have hvm : buildValueMap itemsC3
      (lastRow (closeTable itemsC3 (CloseCols.series [some 1, some 1]))) =
      ([("AAPL", some 1)], some 1) := by
    rw [hlast]
    norm_num [buildValueMap, itemsC3, valueStep, hA, List.lookup,
      assocSet, omul, oadd, sAA]
  have hw : weightsAt itemsC3 (CloseCols.series [some 1, some 1]) = [some 1] := by
    rw [weightsAt, hvm, hct]
    norm_num [weightsOf, hA, List.lookup, odiv, sAA]
  have hdv : dailyVarAt itemsC3 (CloseCols.series [some 1, some 1]) 2 = none := by
    norm_num [dailyVarAt, hcov, hw, dotOQ, osum, omul, oadd]
  have hav : annualVarAt itemsC3 histC3 =
      some (omul (dailyVarAt itemsC3 (CloseCols.series [some 1, some 1]) 2) (some 252)) := by
    apply annualVarAt_some itemsC3 histC3 (CloseCols.series [some 1, some 1]) rfl
    · norm_num [histEmpty, histC3, closeColCount]
    · norm_num [hct]
    · norm_num [histC3, hkept]
  rw [hav, hdv]
  rfl

/-- Counterexample to claim C3 as stated: a constant price history with
exactly two price points yields the float NaN, not 0.0 (the single return
row leaves the ddof-1 sample covariance undefined). -/
theorem constant_two_point_nan_counterexample :
    calculate_portfolio_volatility itemsC3 histC3 = Except.ok none ∧
    Except.ok (none : Option ℝ) ≠
      (Except.ok (some 0) : Except String (Option ℝ)) := by
  constructor
  · rw [calculate_portfolio_volatility, annualVar_on_histC3]
    rfl
  · intro hcontra
    simp at hcontra

/-- Claim C3 (amended): the volatility guards all yield exactly 0.0 — on
an empty history, a history without a Close block, a close table whose
columns are all missing, and an empty daily-return table; a zero total
position value yields 0.0 when the retained return table is complete with
at least two rows; and constant nonzero prices over at least three rows
yield 0.0 (with only two rows the result is NaN, see the
counterexample). -/
theorem volatility_edge_cases :
    (∀ (items : List PortfolioItem) (h : HistData), histEmpty h = true →
      calculate_portfolio_volatility items h = Except.ok (some 0)) ∧
    (∀ (items : List PortfolioItem) (h : HistData), h.close = none →
      calculate_portfolio_volatility items h = Except.ok (some 0)) ∧
    (∀ (items : List PortfolioItem) (h : HistData) (cc : CloseCols),
      h.close = some cc →
      (∀ col ∈ closeDF items cc, ∀ x ∈ col.2, x = none) →
      calculate_portfolio_volatility items h = Except.ok (some 0)) ∧
    (∀ (items : List PortfolioItem) (h : HistData) (cc : CloseCols),
      h.close = some cc →
      keptOf items cc h.numRows = [] →
      calculate_portfolio_volatility items h = Except.ok (some 0)) ∧
    (∀ (items : List PortfolioItem) (h : HistData) (cc : CloseCols),
      h.close = some cc →
      totalValAt items cc = some 0 →
      2 ≤ (keptOf items cc h.numRows).length →
      (∀ c ∈ drColsOf items cc h.numRows, ∀ x ∈ c, x.isSome) →
      calculate_portfolio_volatility items h = Except.ok (some 0)) ∧
    (∀ (items : List PortfolioItem) (h : HistData) (cc : CloseCols),
      h.close = some cc →
      (∀ p ∈ closeTable items cc, ∃ v, v ≠ 0 ∧
        p.2 = List.replicate h.numRows (some v)) →
      3 ≤ h.numRows →
      calculate_portfolio_volatility items h = Except.ok (some 0)) := by
  refine ⟨vol_of_histEmpty, vol_of_no_close, ?_, ?_, ?_, ?_⟩
  · intro items h cc hcc hall
    apply vol_of_closeTable_empty items h cc hcc
    have hct : closeTable items cc = [] := by
      rw [closeTable, dropAllNaCols, List.filter_eq_nil_iff]
      intro col hcol
      simp only [Bool.not_eq_true, List.any_eq_false]
      intro x hx
      rw [hall col hcol x hx]
      simp
    rw [hct]
    rfl
  · intro items h cc hcc hk
    exact vol_of_kept_empty items h cc hcc (by rw [hk]; rfl)
  · intro items h cc hcc htot hL hcomp
    cases he : histEmpty h with
    | true => exact vol_of_histEmpty items h he
    | false =>
        cases hcd : (closeTable items cc).isEmpty with
        | true => exact vol_of_closeTable_empty items h cc hcc hcd
        | false =>
            have hkept : (keptOf items cc h.numRows).isEmpty = false := by
              cases hk : keptOf items cc h.numRows with
              | nil => rw [hk] at hL; simp at hL
              | cons a t => simp
            apply calc_of_daily_zero items h cc hcc he hcd hkept
            apply dailyVar_zero_weights items cc h.numRows _ hL hcomp
            exact weightsAt_zero_of_total_nonpos items cc 0 htot (by norm_num)
  · intro items h cc hcc hconst hR3
    cases he : histEmpty h with
    | true => exact vol_of_histEmpty items h he
    | false =>
        cases hcd : (closeTable items cc).isEmpty with
        | true => exact vol_of_closeTable_empty items h cc hcc hcd
        | false =>
            have hctne : closeTable items cc ≠ [] := by
              intro hh
              rw [hh] at hcd
              simp at hcd
            have hret : ∀ c ∈ retColsOf items cc,
                c = none :: List.replicate (h.numRows - 1) (some 0) := by
              intro c hc
              simp only [retColsOf, List.mem_map] at hc
              obtain ⟨p, hp, rfl⟩ := hc
              obtain ⟨v, hv, hpv⟩ := hconst p hp
              rw [hpv, pct_replicate v hv h.numRows (by omega)]
            have hretne : retColsOf items cc ≠ [] := by
              simp only [retColsOf]
              intro hh
              exact hctne (List.map_eq_nil_iff.mp hh)
            have hkeq : keptOf items cc h.numRows =
                (List.range (h.numRows - 1)).map Nat.succ := by
              apply keptIdxs_uniform _ _ (by omega) hretne
              · intro c hc
                rw [hret c hc]
                rfl
              · intro c hc i h1 hiR
                rw [hret c hc]
                obtain ⟨j, rfl⟩ : ∃ j, i = j + 1 := ⟨i - 1, by omega⟩
                rw [List.getD_cons_succ, getD_replicate_lt _ _ _ _ (by omega)]
                rfl
            have hkept : (keptOf items cc h.numRows).isEmpty = false := by
              rw [hkeq]
              have h2 : 1 ≤ h.numRows - 1 := by omega
              cases hr : List.range (h.numRows - 1) with
              | nil =>
                  have := List.length_range (h.numRows - 1)
                  rw [hr] at this
                  simp at this
                  omega
              | cons a t => simp
            have hdr : ∀ c ∈ drColsOf items cc h.numRows,
                c = List.replicate (h.numRows - 1) (some 0) := by
              intro c hc
              simp only [drColsOf, List.mem_map] at hc
              obtain ⟨c0, hc0, rfl⟩ := hc
              rw [hret c0 hc0, hkeq]
              have hlenrw : List.range (h.numRows - 1) =
                  List.range ((List.replicate (h.numRows - 1) (some (0:ℚ))).length) := by
                simp
              rw [hlenrw, selectRows_cons_shift]
            have hcovz : ∀ row ∈ covMatrix (drColsOf items cc h.numRows),
                ∀ x ∈ row, x = some 0 := by
              intro row hrow x hx
              simp only [covMatrix, List.mem_map] at hrow
              obtain ⟨ci, hci, rfl⟩ := hrow
              simp only [List.mem_map] at hx
              obtain ⟨cj, hcj, rfl⟩ := hx
              rw [hdr ci hci, hdr cj hcj]
              exact pairCov_replicate_zero (h.numRows - 1) (by omega)
            exact calc_of_daily_zero items h cc hcc he hcd hkept
              (dailyVar_zero_cov items cc h.numRows hcovz)


/-- Witness for the amended claim C3: one concrete instance per edge
case. -/
theorem volatility_edge_cases_witness :
    calculate_portfolio_volatility [] emptyHist = Except.ok (some 0) ∧
    calculate_portfolio_volatility [⟨"AAPL", 1, 1⟩] ⟨5, none, 4⟩ = Except.ok (some 0) ∧
    calculate_portfolio_volatility [⟨"AAA", 1, 1⟩]
      ⟨2, some (CloseCols.frame [("AAA", [none, none])]), 4⟩ = Except.ok (some 0) ∧
    calculate_portfolio_volatility [⟨"AAPL", 1, 1⟩]
      ⟨1, some (CloseCols.series [some 5]), 4⟩ = Except.ok (some 0) ∧
    calculate_portfolio_volatility [⟨"AAPL", 0, 1⟩]
      ⟨3, some (CloseCols.series [some 1, some 2, some 4]), 4⟩ = Except.ok (some 0) ∧
    calculate_portfolio_volatility [⟨"AAPL", 1, 1⟩]
      ⟨3, some (CloseCols.series [some 2, some 2, some 2]), 4⟩ = Except.ok (some 0) := by
  have hA : pyUpper "AAPL" = "AAPL" := by decide
  have sAA : (("AAPL" : String) == "AAPL") = true := by decide
  refine ⟨?_, ?_, ?_, ?_, ?_, ?_⟩
  · exact volatility_edge_cases.1 [] emptyHist (by norm_num [histEmpty, emptyHist, closeColCount])
  · exact volatility_edge_cases.2.1 _ _ rfl
  · exact volatility_edge_cases.2.2.1 _ _ (CloseCols.frame [("AAA", [none, none])]) rfl
      (by
        intro col hcol x hx
        simp only [closeDF, List.mem_singleton] at hcol
        subst hcol
        simp only [List.mem_cons, List.not_mem_nil, or_false] at hx
        rcases hx with h | h <;> exact h)
  · refine volatility_edge_cases.2.2.2.1 _ _ (CloseCols.series [some 5]) rfl ?_
    norm_num [keptOf, retColsOf, closeTable, closeDF, dropAllNaCols, singleColName,
      hA, pctChangeCol, ffillFrom, pctOne, keptIdxs, List.range_succ]
  · have hct5 : closeTable [⟨"AAPL", 0, 1⟩] (CloseCols.series [some 1, some 2, some 4]) =
        [("AAPL", [some 1, some 2, some 4])] := by
      norm_num [closeTable, closeDF, dropAllNaCols, singleColName, hA]
    have hret5 : retColsOf [⟨"AAPL", 0, 1⟩] (CloseCols.series [some 1, some 2, some 4]) =
        [[none, some 1, some 1]] := by
      norm_num [retColsOf, hct5, pctChangeCol, ffillFrom, pctOne]
    have hkept5 : keptOf [⟨"AAPL", 0, 1⟩] (CloseCols.series [some 1, some 2, some 4]) 3 =
        [1, 2] := by
      norm_num [keptOf, hret5, keptIdxs, List.range_succ]
    refine volatility_edge_cases.2.2.2.2.1 _ _ (CloseCols.series [some 1, some 2, some 4])
      rfl ?_ ?_ ?_
    · norm_num [totalValAt, hct5, lastRow, buildValueMap, valueStep, hA,
        List.lookup, assocSet, omul, oadd, sAA]
    · rw [show (HistData.mk 3 (some (CloseCols.series [some 1, some 2, some 4])) 4).numRows
        = 3 from rfl, hkept5]
      norm_num
    · rw [show (HistData.mk 3 (some (CloseCols.series [some 1, some 2, some 4])) 4).numRows
        = 3 from rfl]
      have hdr5 : drColsOf [⟨"AAPL", 0, 1⟩] (CloseCols.series [some 1, some 2, some 4]) 3 =
          [[some 1, some 1]] := by
        rw [drColsOf, hkept5]
        norm_num [hret5, selectRows]
      rw [hdr5]
      intro c hc x hx
      simp only [List.mem_singleton] at hc
      subst hc
      rcases List.mem_cons.mp hx with h1 | h1
      · rw [h1]; rfl
      · rcases List.mem_cons.mp h1 with h2 | h2
        · rw [h2]; rfl
        · simp at h2
  · refine volatility_edge_cases.2.2.2.2.2 _ _ (CloseCols.series [some 2, some 2, some 2])
      rfl ?_ (by norm_num)
    intro p hp
    have hct6 : closeTable [⟨"AAPL", 1, 1⟩] (CloseCols.series [some 2, some 2, some 2]) =
        [("AAPL", [some 2, some 2, some 2])] := by
      norm_num [closeTable, closeDF, dropAllNaCols, singleColName, hA]
    rw [hct6] at hp
    simp only [List.mem_singleton] at hp
    subst hp
    refine ⟨2, by norm_num, ?_⟩
    rfl


/-- Componentwise percentage change of two genuine columns with nonzero
first column. -/
theorem zipWith_pctOne_map_some (x y : List ℚ) (hx : ∀ a ∈ x, a ≠ 0) :
    List.zipWith pctOne (x.map some) (y.map some) =
      (List.zipWith (fun a b => (b - a) / a) x y).map some := by
  induction x generalizing y with
  | nil => simp
  | cons a xs ih =>
      cases y with
      | nil => simp
      | cons b ys =>
          simp only [List.map_cons, List.zipWith_cons_cons]
          rw [ih ys (fun z hz => hx z (List.mem_cons_of_mem _ hz))]
          have ha : a ≠ 0 := hx a (List.mem_cons_self _ _)
          simp [pctOne, ha]

/-- pct_change of a NaN-free nonzero price column: a leading NaN followed
by the genuine daily returns. -/
theorem pct_map_some (ps : List ℚ) (hps : ∀ p ∈ ps, p ≠ 0) (hne : ps ≠ []) :
    pctChangeCol (ps.map some) = none :: (dailyReturnsQ ps).map some := by
  cases ps with
  | nil => exact absurd rfl hne
  | cons a t =>
      rw [show pctChangeCol ((a :: t).map some) =
          none :: List.zipWith pctOne (ffillFrom none ((a :: t).map some))
            (ffillFrom none ((a :: t).map some)).tail from rfl]
      rw [ffill_map_some, ← List.map_tail, zipWith_pctOne_map_some _ _ hps,
        dailyReturnsQ]

/-- The self sample covariance is the sample variance numerator over the
ddof denominator. -/
theorem sCovQ_self (rs : List ℚ) :
    sCovQ rs rs = (rs.map (fun r => (r - meanQ rs) ^ 2)).sum / ((rs.length : ℚ) - 1) := by
  rw [sCovQ]
  congr 1
  have hzip : rs.zip rs = rs.map (fun a => (a, a)) := by
    induction rs with
    | nil => rfl
    | cons a t ih => simp [List.zip_cons_cons, ih]
  rw [hzip, List.map_map]
  apply congrArg List.sum
  refine List.map_congr_left fun a _ => ?_
  simp only [Function.comp]
  ring

/-- The self sample covariance of at least two samples is non-negative. -/
theorem sCovQ_self_nonneg (rs : List ℚ) (h2 : 2 ≤ rs.length) :
    0 ≤ sCovQ rs rs := by
  rw [sCovQ_eq_sum rs rs rs.length rfl rfl]
  apply div_nonneg
  · exact Finset.sum_nonneg fun r _ => mul_self_nonneg _
  · have : (2 : ℚ) ≤ (rs.length : ℚ) := by exact_mod_cast h2
    linarith

/-- Claim C2: for a single-holding portfolio (canonical upper-case ticker,
positive quantity) whose history is a NaN-free positive price series of at
least two points, the computed volatility is exactly the annualized
standard deviation of that series, sqrt of 252 times the sample variance
of the daily returns — NaN on both sides when only one return exists. -/
theorem single_symbol_volatility (it : PortfolioItem) (ps : List ℚ) (h : HistData)
    (hsym : pyUpper it.symbol = it.symbol)
    (hq : 0 < it.quantity)
    (hpos : ∀ p ∈ ps, 0 < p)
    (hlen : 2 ≤ ps.length)
    (hrows : h.numRows = ps.length)
    (hclose : h.close = some (CloseCols.series (ps.map some))) :
    calculate_portfolio_volatility [it] h = Except.ok (annualizedStdSpec ps) := by
  have hps0 : ∀ p ∈ ps, p ≠ 0 := fun p hp => ne_of_gt (hpos p hp)
  have hpsne : ps ≠ [] := by
    intro hh
    rw [hh] at hlen
    simp at hlen
  have hcent : closeColCount h = 1 := by rw [closeColCount, hclose]
  have hne : histEmpty h = false := by
    have h1 : h.numRows ≠ 0 := by rw [hrows]; omega
    rw [histEmpty, hcent]
    simp [h1]
  have hct : closeTable [it] (CloseCols.series (ps.map some)) =
      [(it.symbol, ps.map some)] := by
    obtain ⟨a, t, rfl⟩ : ∃ a t, ps = a :: t := by
      cases ps with
      | nil => exact absurd rfl hpsne
      | cons a t => exact ⟨a, t, rfl⟩
    rw [closeTable, closeDF, singleColName, hsym, dropAllNaCols]
    simp
  have hcdf : (closeTable [it] (CloseCols.series (ps.map some))).isEmpty = false := by
    rw [hct]
    rfl
  have hret : retColsOf [it] (CloseCols.series (ps.map some)) =
      [none :: (dailyReturnsQ ps).map some] := by
    rw [retColsOf, hct, List.map_singleton, pct_map_some ps hps0 hpsne]
  have hretlen : (dailyReturnsQ ps).length = ps.length - 1 := by
    rw [dailyReturnsQ, List.length_zipWith, List.length_tail]
    omega
  have hkeq : keptOf [it] (CloseCols.series (ps.map some)) h.numRows =
      (List.range (h.numRows - 1)).map Nat.succ := by
    rw [keptOf, hret]
    apply keptIdxs_uniform _ _ (by omega) (by simp)
    · intro c hc
      simp only [List.mem_singleton] at hc
      subst hc
      rfl
    · intro c hc i h1 hiR
      simp only [List.mem_singleton] at hc
      subst hc
      obtain ⟨j, rfl⟩ : ∃ j, i = j + 1 := ⟨i - 1, by omega⟩
      rw [List.getD_cons_succ]
      have hj : j < ((dailyReturnsQ ps).map some).length := by
        rw [List.length_map, hretlen]
        omega
      rw [List.getD_eq_getElem _ _ hj, List.getElem_map]
      rfl
  have hkept : (keptOf [it] (CloseCols.series (ps.map some)) h.numRows).isEmpty
      = false := by
    rw [hkeq]
    cases hr : List.range (h.numRows - 1) with
    | nil =>
        have := List.length_range (h.numRows - 1)
        rw [hr] at this
        simp at this
        omega
    | cons a t => simp
  have hdr : drColsOf [it] (CloseCols.series (ps.map some)) h.numRows =
      [(dailyReturnsQ ps).map some] := by
    rw [drColsOf, hkeq, hret, List.map_singleton]
    have hlenrw : List.range (h.numRows - 1) =
        List.range (((dailyReturnsQ ps).map some).length) := by
      rw [List.length_map, hretlen, hrows]
    rw [hlenrw, selectRows_cons_shift]
  have hcov : covMatrix (drColsOf [it] (CloseCols.series (ps.map some)) h.numRows) =
      [[pairCov ((dailyReturnsQ ps).map some) ((dailyReturnsQ ps).map some)]] := by
    rw [hdr, covMatrix]
    rfl
  have hlast : lastRow (closeTable [it] (CloseCols.series (ps.map some))) =
      [(it.symbol, some (ps.getLast hpsne))] := by
    rw [hct, lastRow, List.map_singleton, List.getLast?_map,
      List.getLast?_eq_getLast ps hpsne]
    rfl
  have hlastpos : 0 < ps.getLast hpsne := hpos _ (List.getLast_mem hpsne)
  have hbeq : (it.symbol == it.symbol) = true := beq_self_eq_true it.symbol
  have hvm : buildValueMap [it]
      (lastRow (closeTable [it] (CloseCols.series (ps.map some)))) =
      ([(it.symbol, some (ps.getLast hpsne * it.quantity))],
       some (0 + ps.getLast hpsne * it.quantity)) := by
    rw [hlast, buildValueMap]
    simp only [List.foldl_cons, List.foldl_nil, valueStep, hsym, List.lookup, hbeq,
      Option.getD_some, assocSet, omul, oadd]
  have htpos : 0 < 0 + ps.getLast hpsne * it.quantity := by
    rw [zero_add]
    exact mul_pos hlastpos hq
  have hw : weightsAt [it] (CloseCols.series (ps.map some)) = [some 1] := by
    rw [weightsAt, hvm, hct]
    simp only [List.map_singleton, weightsOf, hsym, List.lookup, hbeq,
      Option.getD_some, if_pos htpos, odiv]
    have : ps.getLast hpsne * it.quantity / (0 + ps.getLast hpsne * it.quantity) = 1 := by
      rw [zero_add]
      exact div_self (ne_of_gt (mul_pos hlastpos hq))
    rw [this]
  rw [calculate_portfolio_volatility,
    annualVarAt_some [it] h (CloseCols.series (ps.map some)) hclose hne hcdf hkept]
  rcases Nat.lt_or_ge (dailyReturnsQ ps).length 2 with hc2 | hc2
  · have hC : pairCov ((dailyReturnsQ ps).map some) ((dailyReturnsQ ps).map some)
        = none := by
      rw [pairCov_map_some _ _ rfl, if_pos hc2]
    have hdv : dailyVarAt [it] (CloseCols.series (ps.map some)) h.numRows = none := by
      rw [dailyVarAt, hcov, hw, hC]
      rfl
    rw [hdv]
    have hspec : annualizedStdSpec ps = none := by
      rw [annualizedStdSpec, sampleVariance, if_pos hc2]
      rfl
    rw [hspec]
    rfl
  · have hC : pairCov ((dailyReturnsQ ps).map some) ((dailyReturnsQ ps).map some)
        = some (sCovQ (dailyReturnsQ ps) (dailyReturnsQ ps)) := by
      rw [pairCov_map_some _ _ rfl, if_neg (by omega)]
    have hV := sCovQ_self_nonneg (dailyReturnsQ ps) hc2
    set V := sCovQ (dailyReturnsQ ps) (dailyReturnsQ ps) with hVdef
    have hdv : dailyVarAt [it] (CloseCols.series (ps.map some)) h.numRows
        = some (0 + 1 * (0 + V * 1)) := by
      rw [dailyVarAt, hcov, hw, hC]
      rfl
    rw [hdv]
    have harg : (0 + 1 * (0 + V * 1)) * 252 = 252 * V := by ring
    have hargnn : 0 ≤ (0 + 1 * (0 + V * 1)) * 252 := by
      rw [harg]
      positivity
    rw [show omul (some (0 + 1 * (0 + V * 1))) (some 252)
        = some ((0 + 1 * (0 + V * 1)) * 252) from rfl]
    show mathSqrt (some ((0 + 1 * (0 + V * 1)) * 252)) = Except.ok (annualizedStdSpec ps)
    rw [show mathSqrt (some ((0 + 1 * (0 + V * 1)) * 252))
        = if ((0 + 1 * (0 + V * 1)) * 252 : ℚ) < 0
          then Except.error "ValueError: math domain error"
          else Except.ok (some (Real.sqrt (((0 + 1 * (0 + V * 1)) * 252 : ℚ) : ℝ)))
        from rfl]
    rw [if_neg (not_lt.mpr hargnn)]
    have hspec : annualizedStdSpec ps = some (Real.sqrt (((252 : ℚ) * V : ℚ) : ℝ)) := by
      rw [annualizedStdSpec, sampleVariance, if_neg (by omega)]
      rw [show ((dailyReturnsQ ps).map (fun r => (r - meanQ (dailyReturnsQ ps)) ^ 2)).sum
            / (((dailyReturnsQ ps).length : ℚ) - 1) = V from (sCovQ_self _).symm]
      rfl
    rw [hspec, harg]

/-- Witness for claim C2 on the price series 1, 2, 3 with one share. -/
theorem single_symbol_volatility_witness :
    calculate_portfolio_volatility [⟨"AAPL", 1, 150⟩]
        ⟨3, some (CloseCols.series [some 1, some 2, some 3]), 4⟩
      = Except.ok (annualizedStdSpec [1, 2, 3]) := by
  have h := single_symbol_volatility ⟨"AAPL", 1, 150⟩ [1, 2, 3]
    ⟨3, some (CloseCols.series [some 1, some 2, some 3]), 4⟩
    (by decide) (by norm_num)
    (by intro p hp; rcases List.mem_cons.mp hp with h1 | h1
        · rw [h1]; norm_num
        · rcases List.mem_cons.mp h1 with h2 | h2
          · rw [h2]; norm_num
          · rcases List.mem_cons.mp h2 with h3 | h3
            · rw [h3]; norm_num
            · simp at h3)
    (by norm_num) rfl rfl
  simpa using h


/-- Staged evaluation of the volatility pipeline on two lots of one
symbol over prices 1, 2, 3: the dict overwrite makes the weight 1/2, so
the annualized variance is (1/2) * (1/8) * (1/2) * 252 = 63/8 instead of
the full (1/8) * 252 = 63/2. -/
theorem annualVar_on_histC2 : annualVarAt itemsC2 histC2 = some (some (63/8)) := by
  have hA : pyUpper "AAPL" = "AAPL" := by decide
  have sAA : (("AAPL" : String) == "AAPL") = true := by decide
  have hct : closeTable itemsC2 (CloseCols.series [some 1, some 2, some 3]) =
      [("AAPL", [some 1, some 2, some 3])] := by
    norm_num [closeTable, closeDF, dropAllNaCols, singleColName, itemsC2, hA]
  have hret : retColsOf itemsC2 (CloseCols.series [some 1, some 2, some 3]) =
      [[none, some 1, some (1/2)]] := by
    norm_num [retColsOf, hct, pctChangeCol, ffillFrom, pctOne]
  have hkept : keptOf itemsC2 (CloseCols.series [some 1, some 2, some 3]) 3 =
      [1, 2] := by
    norm_num [keptOf, hret, keptIdxs, List.range_succ]
  have hdr : drColsOf itemsC2 (CloseCols.series [some 1, some 2, some 3]) 3 =
      [[some 1, some (1/2)]] := by
    rw [drColsOf, hkept]
    norm_num [hret, selectRows]
  have hcov : covMatrix (drColsOf itemsC2 (CloseCols.series [some 1, some 2, some 3]) 3) =
      [[some (1/8)]] := by
    norm_num [hdr, covMatrix, pairCov, pairKeep, List.filterMap_cons, meanQ]
  have hlast : lastRow (closeTable itemsC2 (CloseCols.series [some 1, some 2, some 3])) =
      [("AAPL", some 3)] := by
    norm_num [hct, lastRow]
  have hvm : buildValueMap itemsC2
      (lastRow (closeTable itemsC2 (CloseCols.series [some 1, some 2, some 3]))) =
      ([("AAPL", some 3)], some 6) := by
    rw [hlast]
    norm_num [buildValueMap, itemsC2, valueStep, hA, List.lookup, assocSet,
      omul, oadd, sAA]
  have hw : weightsAt itemsC2 (CloseCols.series [some 1, some 2, some 3]) =
      [some (1/2)] := by
    rw [weightsAt, hvm, hct]
    norm_num [weightsOf, hA, List.lookup, odiv, sAA]
  have hdv : dailyVarAt itemsC2 (CloseCols.series [some 1, some 2, some 3]) 3 =
      some (1/32) := by
    norm_num [dailyVarAt, hcov, hw, dotOQ, osum, omul, oadd]
  have hav : annualVarAt itemsC2 histC2 =
      some (omul (dailyVarAt itemsC2 (CloseCols.series [some 1, some 2, some 3]) 3)
        (some 252)) := by
    apply annualVarAt_some itemsC2 histC2 (CloseCols.series [some 1, some 2, some 3]) rfl
    · norm_num [histEmpty, histC2, closeColCount]
    · norm_num [hct]
    · norm_num [histC2, hkept]
  rw [hav, hdv]
  norm_num [omul]

/-- Counterexample to claim C2 as stated: a portfolio of two lots of the
single symbol AAPL over prices 1, 2, 3 has volatility sqrt(63/8) — the
symbol_value_map overwrite leaves the weight at 1/2 — while the
annualized standard deviation of the symbol's own returns is the strictly
larger sqrt(63/2), so the computed volatility differs from the claimed
formula. -/
theorem duplicate_symbol_volatility_counterexample :
    calculate_portfolio_volatility itemsC2 histC2 =
      Except.ok (some (Real.sqrt ((63/8 : ℚ) : ℝ))) ∧
    annualizedStdSpec [1, 2, 3] = some (Real.sqrt ((63/2 : ℚ) : ℝ)) ∧
    calculate_portfolio_volatility itemsC2 histC2 ≠
      Except.ok (annualizedStdSpec [1, 2, 3]) := by
  have hcalc : calculate_portfolio_volatility itemsC2 histC2 =
      Except.ok (some (Real.sqrt ((63/8 : ℚ) : ℝ))) := by
    rw [calculate_portfolio_volatility, annualVar_on_histC2]
    show mathSqrt (some (63/8)) = Except.ok (some (Real.sqrt ((63/8 : ℚ) : ℝ)))
    rw [show mathSqrt (some (63/8))
        = if ((63/8 : ℚ)) < 0 then Except.error "ValueError: math domain error"
          else Except.ok (some (Real.sqrt ((63/8 : ℚ) : ℝ))) from rfl]
    rw [if_neg (by norm_num)]
  have hvar : sampleVariance (dailyReturnsQ [1, 2, 3]) = some (1/8) := by
    norm_num [dailyReturnsQ, sampleVariance, meanQ]
  have hspec : annualizedStdSpec [1, 2, 3] = some (Real.sqrt ((63/2 : ℚ) : ℝ)) := by
    rw [annualizedStdSpec, hvar]
    rw [show Option.map (fun v => Real.sqrt (((252 : ℚ) * v : ℚ) : ℝ)) (some (1/8))
        = some (Real.sqrt (((252 : ℚ) * (1/8 : ℚ) : ℚ) : ℝ)) from rfl]
    congr 2
    norm_num
  refine ⟨hcalc, hspec, ?_⟩
  rw [hcalc, hspec]
  intro hcontra
  have h1 : Real.sqrt ((63/8 : ℚ) : ℝ) = Real.sqrt ((63/2 : ℚ) : ℝ) := by
    have := Except.ok.inj hcontra
    exact Option.some.inj this
  have h2 : Real.sqrt ((63/8 : ℚ) : ℝ) < Real.sqrt ((63/2 : ℚ) : ℝ) := by
    apply Real.sqrt_lt_sqrt
    · positivity
    · push_cast
      norm_num
  exact absurd h1 (ne_of_lt h2)

end PocketGenius
